import Mathlib

/-!
Verification of the pixel-transformation engine of the image-transform app.

Conventions of the shallow embedding:
* JavaScript numbers are modelled as exact rationals (`ℚ`).  Every claim
  settled below is robust under this idealisation: the double-precision
  results of the source differ from the exact rational values by less than
  `10^-12`, far from every rounding boundary reached in these theorems.
* `ImageData.data` is the byte array of a `Uint8ClampedArray`, modelled as
  `List ℕ`.  A write stores `ToUint8Clamp` of the written number: clamp to
  `[0,255]`, then round half to even (`clampRoundHE`).  `Math.round` is
  `⌊q + 1/2⌋` (`jsRound`).  Out-of-range writes are ignored (`List.set`
  has exactly this behaviour), and an out-of-range read yields `undefined`,
  which poisons arithmetic to `NaN`; a `NaN` store puts `0`.  Reads are
  therefore `Option`-valued where the source can read out of range, and a
  `none` result is stored as `0`.
-/

namespace ImageApp

/- Batteries seals the arithmetic of `ℚ` against unfolding; re-open it so
that concrete instances of the definitions below can be settled by `decide`. -/
attribute [local semireducible] Rat.mul Rat.add Rat.inv Rat.sub Rat.ofScientific

/-- `Math.round`: round half up (toward `+∞`). -/
def jsRound (q : ℚ) : ℤ := (q + 1/2).floor

/-- `ToUint8Clamp` conversion performed by a `Uint8ClampedArray` store:
clamp to `[0,255]` and round, ties to even. -/
def clampRoundHE (q : ℚ) : ℕ :=
  if q ≤ 0 then 0
  else if 255 ≤ q then 255
  else
    (if q - q.floor < 1/2 then q.floor
     else if 1/2 < q - q.floor then q.floor + 1
     else if 2 ∣ q.floor then q.floor else q.floor + 1).toNat

/-- The source's `clamp` helper: `Math.min(255, Math.max(0, value))`. -/
def clamp255 (q : ℚ) : ℚ := min 255 (max 0 q)

/-- The RGBA byte buffer of an `ImageData`, row major. -/
structure ImageData where
  width : ℕ
  height : ℕ
  data : List ℕ
deriving DecidableEq, Repr

/-- The `ImageData` invariant the platform maintains:
`bytes.length = width*height*4`. -/
def ImageData.Wf (img : ImageData) : Prop :=
  img.data.length = 4 * (img.width * img.height)

instance (img : ImageData) : Decidable img.Wf := by
  unfold ImageData.Wf; infer_instance

/-- A buffer of `n` identical RGBA pixels. -/
def replicatePixel : ℕ → ℕ → ℕ → ℕ → ℕ → List ℕ
  | 0, _, _, _, _ => []
  | n + 1, r, g, b, a => r :: g :: b :: a :: replicatePixel n r g b a

/-! ## basicTransforms.js -/

/-- `applyContrast`'s factor: `(259 * (contrast + 255)) / (255 * (259 - contrast))`. -/
def contrastFactor (contrast : ℚ) : ℚ :=
  259 * (contrast + 255) / (255 * (259 - contrast))

/-- One channel of the contrast loop body:
`data[i] = clamp(factor * (data[i] - 128) + 128)` stored through the
clamped byte array. -/
def contrastByte (factor : ℚ) (v : ℕ) : ℕ :=
  clampRoundHE (clamp255 (factor * ((v : ℚ) - 128) + 128))

/-- The contrast loop (`for i += 4`: transform R,G,B, keep A).  A trailing
chunk shorter than 4 bytes is processed exactly as the source does it:
each existing byte among the first three is transformed (its read is in
range), writes past the end are dropped. -/
def contrastData (factor : ℚ) : List ℕ → List ℕ
  | r :: g :: b :: a :: rest =>
      contrastByte factor r :: contrastByte factor g :: contrastByte factor b :: a ::
        contrastData factor rest
  | [r, g, b] => [contrastByte factor r, contrastByte factor g, contrastByte factor b]
  | [r, g] => [contrastByte factor r, contrastByte factor g]
  | [r] => [contrastByte factor r]
  | [] => []

def applyContrast (img : ImageData) (contrast : ℚ) : ImageData :=
  ⟨img.width, img.height, contrastData (contrastFactor contrast) img.data⟩

/-- One channel of the brightness loop body: `clamp(data[i] * factor)`. -/
def brightnessByte (factor : ℚ) (v : ℕ) : ℕ :=
  clampRoundHE (clamp255 ((v : ℚ) * factor))

def brightnessData (factor : ℚ) : List ℕ → List ℕ
  | r :: g :: b :: a :: rest =>
      brightnessByte factor r :: brightnessByte factor g :: brightnessByte factor b :: a ::
        brightnessData factor rest
  | [r, g, b] => [brightnessByte factor r, brightnessByte factor g, brightnessByte factor b]
  | [r, g] => [brightnessByte factor r, brightnessByte factor g]
  | [r] => [brightnessByte factor r]
  | [] => []

def applyBrightness (img : ImageData) (brightness : ℚ) : ImageData :=
  ⟨img.width, img.height, brightnessData (brightness / 100) img.data⟩

/-- `data[i]*0.299 + data[i+1]*0.587 + data[i+2]*0.114`. -/
def lumin (r g b : ℕ) : ℚ :=
  (r : ℚ) * (299/1000) + (g : ℚ) * (587/1000) + (b : ℚ) * (114/1000)

/-- The grayscale loop.  A trailing chunk of fewer than 3 bytes makes the
source read past the end, so `avg` is `NaN` and the in-range stores put `0`. -/
def grayData : List ℕ → List ℕ
  | r :: g :: b :: a :: rest =>
      let v := clampRoundHE (lumin r g b)
      v :: v :: v :: a :: grayData rest
  | [r, g, b] =>
      let v := clampRoundHE (lumin r g b)
      [v, v, v]
  | [_, _] => [0, 0]
  | [_] => [0]
  | [] => []

def applyGrayscale (img : ImageData) : ImageData :=
  ⟨img.width, img.height, grayData img.data⟩

/-- The threshold loop body over already-grayscaled data:
`value = data[i] < threshold ? 0 : 255`, written to R, G and B. -/
def threshData (threshold : ℚ) : List ℕ → List ℕ
  | v :: _ :: _ :: a :: rest =>
      let u := if (v : ℚ) < threshold then 0 else 255
      u :: u :: u :: a :: threshData threshold rest
  | [v, _, _] =>
      let u := if (v : ℚ) < threshold then 0 else 255
      [u, u, u]
  | [v, _] =>
      let u := if (v : ℚ) < threshold then 0 else 255
      [u, u]
  | [v] =>
      let u := if (v : ℚ) < threshold then 0 else 255
      [u]
  | [] => []

def applyThreshold (img : ImageData) (threshold : ℚ) : ImageData :=
  ⟨img.width, img.height, threshData threshold (grayData img.data)⟩

/-- A byte read, `Option`-valued because the source may index past the end
(`undefined`, which poisons the arithmetic that consumes it). -/
def readQ (data : List ℕ) (i : ℕ) : Option ℚ :=
  (data[i]?).map fun v => (v : ℚ)

/-- The sharpen kernel `[0,-f,0; -f,1+4f,-f; 0,-f,0]`, flattened. -/
def sharpenKernel (factor : ℚ) : List ℚ :=
  [0, -factor, 0, -factor, 1 + 4 * factor, -factor, 0, -factor, 0]

/-- The convolution sum of `applySharpen` at interior pixel `(x,y)`,
channel `c`: the `ky`/`kx` loops unrolled in source order.  The loops only
run with `1 ≤ x` and `1 ≤ y`, so the `ℕ`-subtractions are exact. -/
def sharpenSum (data : List ℕ) (w : ℕ) (factor : ℚ) (x y c : ℕ) : Option ℚ := do
  let v00 ← readQ data (((y - 1) * w + (x - 1)) * 4 + c)
  let v01 ← readQ data (((y - 1) * w + x) * 4 + c)
  let v02 ← readQ data (((y - 1) * w + (x + 1)) * 4 + c)
  let v10 ← readQ data ((y * w + (x - 1)) * 4 + c)
  let v11 ← readQ data ((y * w + x) * 4 + c)
  let v12 ← readQ data ((y * w + (x + 1)) * 4 + c)
  let v20 ← readQ data (((y + 1) * w + (x - 1)) * 4 + c)
  let v21 ← readQ data (((y + 1) * w + x) * 4 + c)
  let v22 ← readQ data (((y + 1) * w + (x + 1)) * 4 + c)
  pure (v00 * 0 + v01 * (-factor) + v02 * 0 +
        v10 * (-factor) + v11 * (1 + 4 * factor) + v12 * (-factor) +
        v20 * 0 + v21 * (-factor) + v22 * 0)

/-- `resultData[pixelIndex + c] = clamp(sum)`; an out-of-range read made the
sum `NaN` and the store puts `0`. -/
def sharpenVal (data : List ℕ) (w : ℕ) (factor : ℚ) (x y c : ℕ) : ℕ :=
  match sharpenSum data w factor x y c with
  | some q => clampRoundHE (clamp255 q)
  | none => 0

/-- The interior pixels `(x,y)`, `1 ≤ x ≤ w-2`, `1 ≤ y ≤ h-2`, in the
source's loop order (`y` outer, `x` inner). -/
def interiorPixels (w h : ℕ) : List (ℕ × ℕ) :=
  (List.range (h - 2)).flatMap fun j => (List.range (w - 2)).map fun i => (i + 1, j + 1)

/-- The sharpen convolution loop: `resultData` starts as a copy of `data`,
each interior pixel's R,G,B are overwritten; all reads are from `data`. -/
def sharpenData (data : List ℕ) (w h : ℕ) (factor : ℚ) : List ℕ :=
  (interiorPixels w h).foldl
    (fun acc p =>
      ((acc.set ((p.2 * w + p.1) * 4) (sharpenVal data w factor p.1 p.2 0)).set
          ((p.2 * w + p.1) * 4 + 1) (sharpenVal data w factor p.1 p.2 1)).set
        ((p.2 * w + p.1) * 4 + 2) (sharpenVal data w factor p.1 p.2 2))
    data

def applySharpen (img : ImageData) (amount : ℚ) : ImageData :=
  if amount = 0 then img
  else ⟨img.width, img.height, sharpenData img.data img.width img.height (amount / 10)⟩

/-! ## edgeDetection.js -/

/-- `resultData[pixelIndex..pixelIndex+3] = (r,g,b,a)` for pixel `m`:
four clamped-array stores, out-of-range stores ignored. -/
def writePixel (acc : List ℕ) (m r g b a : ℕ) : List ℕ :=
  (((acc.set (m * 4) r).set (m * 4 + 1) g).set (m * 4 + 2) b).set (m * 4 + 3) a

/-- Three clamped-array stores on R,G,B of pixel `m`; alpha untouched. -/
def writeRGB (acc : List ℕ) (m r g b : ℕ) : List ℕ :=
  ((acc.set (m * 4) r).set (m * 4 + 1) g).set (m * 4 + 2) b

/-- An integer read (`Option`-valued: an out-of-range read is `undefined`). -/
def readZ (data : List ℕ) (i : ℕ) : Option ℤ :=
  (data[i]?).map fun v => (v : ℤ)

/-- Newton iteration for the integer square root, with explicit fuel (the
guess strictly decreases, so fuel bounds the steps; `sqrtIter_eq_iter`
shows the fuel in `isqrt` never runs out and the result is `Nat.sqrt`). -/
def sqrtIter (n : ℕ) : ℕ → ℕ → ℕ
  | 0, guess => guess
  | fuel + 1, guess =>
      if (guess + n / guess) / 2 < guess then sqrtIter n fuel ((guess + n / guess) / 2)
      else guess

/-- The integer square root (equal to `Nat.sqrt`, but kernel-executable). -/
def isqrt (n : ℕ) : ℕ := if n ≤ 1 then n else sqrtIter n (n / 2) (n / 2)

/-- `Math.sqrt` of a natural number followed by the clamped byte store's
rounding.  `√n` is irrational whenever it is not integral, and is never
half way between two integers, so no rounding tie can arise and the
correctly rounded double of the source rounds to the same byte. -/
def isqrtRound (n : ℕ) : ℕ :=
  if isqrt n * isqrt n + isqrt n < n then isqrt n + 1 else isqrt n

/-- Sobel gradients `(sumX, sumY)` at `(x,y)`: the two 3×3 kernels applied
to the R channel of the grayscaled data, loops unrolled in source order
(the kernels read only in-range bytes when `(x,y)` is interior and the
buffer is well formed; otherwise a `none` models the `NaN` poisoning). -/
def sobelGrad (gray : List ℕ) (w : ℕ) (x y : ℕ) : Option (ℤ × ℤ) := do
  let v00 ← readZ gray (((y - 1) * w + (x - 1)) * 4)
  let v01 ← readZ gray (((y - 1) * w + x) * 4)
  let v02 ← readZ gray (((y - 1) * w + (x + 1)) * 4)
  let v10 ← readZ gray ((y * w + (x - 1)) * 4)
  let v11 ← readZ gray ((y * w + x) * 4)
  let v12 ← readZ gray ((y * w + (x + 1)) * 4)
  let v20 ← readZ gray (((y + 1) * w + (x - 1)) * 4)
  let v21 ← readZ gray (((y + 1) * w + x) * 4)
  let v22 ← readZ gray (((y + 1) * w + (x + 1)) * 4)
  pure (v00 * (-1) + v01 * 0 + v02 * 1 +
          v10 * (-2) + v11 * 0 + v12 * 2 +
          v20 * (-1) + v21 * 0 + v22 * 1,
        v00 * (-1) + v01 * (-2) + v02 * (-1) +
          v10 * 0 + v11 * 0 + v12 * 0 +
          v20 * 1 + v21 * 2 + v22 * 1)

/-- `magnitude = Math.sqrt(sumX*sumX + sumY*sumY)` as stored into the
clamped byte array (`NaN`, from an out-of-range read, stores 0). -/
def sobelMag (gray : List ℕ) (w : ℕ) (x y : ℕ) : ℕ :=
  match sobelGrad gray w x y with
  | some (sx, sy) => min 255 (isqrtRound (sx * sx + sy * sy).toNat)
  | none => 0

/-- All pixels `(x,y)` in the source's raster loop order. -/
def allPixels (w h : ℕ) : List (ℕ × ℕ) :=
  (List.range h).flatMap fun y => (List.range w).map fun x => (x, y)

/-- One interior write of the Sobel convolution pass: the pixel gets
`(mag,mag,mag,255)`. -/
def sobelStep (gray : List ℕ) (w : ℕ) (acc : List ℕ) (p : ℕ × ℕ) : List ℕ :=
  writePixel acc (p.2 * w + p.1) (sobelMag gray w p.1 p.2) (sobelMag gray w p.1 p.2)
    (sobelMag gray w p.1 p.2) 255

/-- The Sobel convolution pass: `resultData` starts all zero and every
interior pixel gets `(mag,mag,mag,255)`. -/
def sobelInterior (gray : List ℕ) (w h : ℕ) : List ℕ :=
  (interiorPixels w h).foldl (sobelStep gray w) (List.replicate gray.length 0)

/-- One step of the Sobel border pass: a pixel with `x = 0`, `x = w-1`,
`y = 0` or `y = h-1` is forced to `(0,0,0,255)`; others are skipped
(`continue`). -/
def sobelBorderStep (w h : ℕ) (acc : List ℕ) (p : ℕ × ℕ) : List ℕ :=
  if p.1 = 0 ∨ p.1 = w - 1 ∨ p.2 = 0 ∨ p.2 = h - 1 then
    writePixel acc (p.2 * w + p.1) 0 0 0 255
  else acc

/-- The Sobel border pass over all pixels. -/
def sobelData (gray : List ℕ) (w h : ℕ) : List ℕ :=
  (allPixels w h).foldl (sobelBorderStep w h) (sobelInterior gray w h)

def applySobelEdgeDetection (img : ImageData) : ImageData :=
  ⟨img.width, img.height, sobelData (grayData img.data) img.width img.height⟩

/-- The 5×5 Gaussian kernel of the source, flattened. -/
def gaussKernel : List ℚ :=
  [2, 4, 5, 4, 2, 4, 9, 12, 9, 4, 5, 12, 15, 12, 5, 4, 9, 12, 9, 4, 2, 4, 5, 4, 2]

/-- The 25 kernel offsets `(kx+2, ky+2)` in loop order. -/
def gaussOffsets : List (ℕ × ℕ) :=
  (List.range 5).flatMap fun j => (List.range 5).map fun i => (i, j)

/-- The blur convolution sum on channel `c` at `(x,y)` (called only with
`2 ≤ x` and `2 ≤ y`); the kernel is normalized by its sum 159. -/
def gaussSum (data : List ℕ) (w : ℕ) (x y c : ℕ) : Option ℚ :=
  gaussOffsets.foldl
    (fun acc d => do
      let s ← acc
      let v ← readQ data (((y - 2 + d.2) * w + (x - 2 + d.1)) * 4 + c)
      pure (s + v * (gaussKernel.getD (d.2 * 5 + d.1) 0 / 159)))
    (some 0)

/-- `resultData[pixelIndex+c] = Math.round(sum)` through the clamped store;
a `NaN` sum stores 0. -/
def gaussVal (data : List ℕ) (w : ℕ) (x y c : ℕ) : ℕ :=
  match gaussSum data w x y c with
  | some q => min 255 (jsRound q).toNat
  | none => 0

/-- The pixels `(x,y)` with `2 ≤ x ≤ w-3`, `2 ≤ y ≤ h-3`, in loop order:
the blur leaves a two-pixel border ring untouched. -/
def interiorPixels2 (w h : ℕ) : List (ℕ × ℕ) :=
  (List.range (h - 4)).flatMap fun j => (List.range (w - 4)).map fun i => (i + 2, j + 2)

/-- The Gaussian blur: `resultData` starts as a copy of `data`; reads are
all from `data`. -/
def gaussData (data : List ℕ) (w h : ℕ) : List ℕ :=
  (interiorPixels2 w h).foldl
    (fun acc p =>
      writeRGB acc (p.2 * w + p.1) (gaussVal data w p.1 p.2 0) (gaussVal data w p.1 p.2 1)
        (gaussVal data w p.1 p.2 2))
    data

def applyGaussianBlur (img : ImageData) : ImageData :=
  ⟨img.width, img.height, gaussData img.data img.width img.height⟩

/-- The double threshold on one magnitude byte:
strong `255` if `> highThreshold`, else weak `128` if `> lowThreshold`,
else `0`. -/
def dtByte (low high : ℕ) (m : ℕ) : ℕ :=
  if m > high then 255 else if m > low then 128 else 0

/-- The double-threshold loop: per 4-byte chunk the R byte is classified
and written to R,G,B with alpha `255`; trailing short chunks exactly as
the source's in-range stores. -/
def dtData (low high : ℕ) : List ℕ → List ℕ
  | m :: _ :: _ :: _ :: rest =>
      dtByte low high m :: dtByte low high m :: dtByte low high m :: 255 ::
        dtData low high rest
  | [m, _, _] => [dtByte low high m, dtByte low high m, dtByte low high m]
  | [m, _] => [dtByte low high m, dtByte low high m]
  | [m] => [dtByte low high m]
  | [] => []

/-- The eight neighbour R-channel indices scanned by the hysteresis pass,
in scan order (`ky` outer, `kx` inner, centre skipped). -/
def neighbor8 (w x y : ℕ) : List ℕ :=
  [((y - 1) * w + (x - 1)) * 4, ((y - 1) * w + x) * 4, ((y - 1) * w + (x + 1)) * 4,
   (y * w + (x - 1)) * 4, (y * w + (x + 1)) * 4,
   ((y + 1) * w + (x - 1)) * 4, ((y + 1) * w + x) * 4, ((y + 1) * w + (x + 1)) * 4]

/-- `hasStrongNeighbor`: some 8-neighbour's R byte currently reads 255
(the source's early `break` is the short-circuit of `any`). -/
def strongNeighborExists (arr : List ℕ) (w x y : ℕ) : Bool :=
  (neighbor8 w x y).any fun idx => arr[idx]? == some 255

/-- One hysteresis step: only a pixel currently reading weak (128) is
rewritten, to white if some neighbour reads strong, else to black. -/
def hystStep (w : ℕ) (acc : List ℕ) (p : ℕ × ℕ) : List ℕ :=
  if acc[(p.2 * w + p.1) * 4]? = some 128 then
    if strongNeighborExists acc w p.1 p.2 then
      writeRGB acc (p.2 * w + p.1) 255 255 255
    else
      writeRGB acc (p.2 * w + p.1) 0 0 0
  else acc

/-- The hysteresis pass: one in-place raster scan of the interior pixels. -/
def hysteresis (w h : ℕ) (arr : List ℕ) : List ℕ :=
  (interiorPixels w h).foldl (hystStep w) arr

/-- `resultData` as it stands after the double threshold (stages 1–3 of the
Canny pipeline), before the hysteresis pass. -/
def cannyThresholded (img : ImageData) (low high : ℕ) : List ℕ :=
  dtData low high (applySobelEdgeDetection (applyGaussianBlur img)).data

def applyCannyEdgeDetection (img : ImageData) (low high : ℕ) : ImageData :=
  ⟨img.width, img.height,
    hysteresis img.width img.height (cannyThresholded img low high)⟩

/-! ## colorUtils.js -/

/-- Truncation toward zero, as in JavaScript's `%`. -/
def ratTrunc (q : ℚ) : ℤ := if 0 ≤ q then q.floor else -((-q).floor)

/-- JavaScript's `%` on numbers: remainder with the dividend's sign. -/
def jsMod (a b : ℚ) : ℚ := a - b * (ratTrunc (a / b) : ℚ)

/-- Circular distance between two hue angles measured in degrees. -/
def hueDist (a b : ℚ) : ℚ := min |a - b| (360 - |a - b|)

/-- `hsvToRgb(h, s, v)`: `Math.round` outputs may in principle be negative
(for `s > 1`), so components are integers. -/
def hsvToRgb (h s v : ℚ) : ℤ × ℤ × ℤ :=
  let h' := jsMod (jsMod h 360 + 360) 360
  if s = 0 then
    (jsRound (v * 255), jsRound (v * 255), jsRound (v * 255))
  else
    let i : ℤ := (h' / 60).floor % 6
    let f := h' / 60 - ((h' / 60).floor : ℚ)
    let p := v * (1 - s)
    let q := v * (1 - f * s)
    let t := v * (1 - (1 - f) * s)
    let rgb : ℚ × ℚ × ℚ :=
      if i = 0 then (v, t, p)
      else if i = 1 then (q, v, p)
      else if i = 2 then (p, v, t)
      else if i = 3 then (p, q, v)
      else if i = 4 then (t, p, v)
      else (v, p, q)
    (jsRound (rgb.1 * 255), jsRound (rgb.2.1 * 255), jsRound (rgb.2.2 * 255))

/-- `rgbToHsv(r, g, b)` → `(h, s, v)`, `h` in whole degrees `[0, 360)`. -/
def rgbToHsv (r g b : ℚ) : ℚ × ℚ × ℚ :=
  let r' := r / 255
  let g' := g / 255
  let b' := b / 255
  let mx := max r' (max g' b')
  let mn := min r' (min g' b')
  let delta := mx - mn
  let hraw : ℚ :=
    if delta = 0 then 0
    else if mx = r' then jsMod ((g' - b') / delta) 6
    else if mx = g' then (b' - r') / delta + 2
    else (r' - g') / delta + 4
  let h0 : ℤ := jsRound (hraw * 60)
  let h1 : ℤ := if h0 < 0 then h0 + 360 else h0
  ((h1 : ℚ), if mx = 0 then 0 else delta / mx, mx)

/-- `getLuminance`. -/
def luminance (r g b : ℚ) : ℚ :=
  (299/1000 * r + 587/1000 * g + 114/1000 * b) / 255

/-- The HSV → RGB → HSV round trip through byte-quantized RGB, as in
`rgbToHsv(...hsvToRgb(h, s, v))`. -/
def roundTrip (h s v : ℚ) : ℚ × ℚ × ℚ :=
  rgbToHsv ((hsvToRgb h s v).1 : ℚ) ((hsvToRgb h s v).2.1 : ℚ)
    ((hsvToRgb h s v).2.2 : ℚ)

/-! ## segmentation.js

The flood fill's `while (stack.length > 0)` runs one pop per iteration and
the number of pushes is bounded by one (the seed) plus the number of
pixels that become assigned, which is at most `w*h`; the fuel `w*h + 1`
therefore never runs out.  The merge-chain flatten loop, by contrast, can
genuinely fail to terminate (see `C4_segmentation_diverges`): a chain that
is still unfinished after `mergeMap.length` hops has revisited a segment
id and loops forever, so `resolveChain` with fuel `length + 1` returns
`none` exactly when the source hangs. -/

/-- The 4-neighbour direction list `[(-1,0),(1,0),(0,-1),(0,1)]`. -/
def segDirs : List (ℤ × ℤ) := [(-1, 0), (1, 0), (0, -1), (0, 1)]

/-- `Math.sqrt(colorDiff²) ≤ tolerance` for an integer sum of squares
`d ≥ 0`: false when `tolerance < 0`, else `d ≤ tolerance²`. -/
def distLE (d : ℤ) (tol : ℚ) : Prop := 0 ≤ tol ∧ (d : ℚ) ≤ tol * tol

instance (d : ℤ) (tol : ℚ) : Decidable (distLE d tol) := by
  unfold distLE; infer_instance

/-- The mutable state inside one `floodFill` call. -/
structure FillState where
  map : List ℤ
  size : ℕ
  sumR : ℕ
  sumG : ℕ
  sumB : ℕ
  count : ℕ
  stack : List (ℕ × ℕ)
deriving Repr

/-- Processing one direction for the popped pixel `(cx,cy)`: bounds check,
skip if assigned, join the segment iff the colour is within tolerance of
the seed colour. -/
def fillDir (data : List ℕ) (w h : ℕ) (tol : ℚ) (cur bR bG bB cx cy : ℕ)
    (st : FillState) (d : ℤ × ℤ) : FillState :=
  let nx : ℤ := (cx : ℤ) + d.1
  let ny : ℤ := (cy : ℤ) + d.2
  if nx < 0 ∨ (w : ℤ) ≤ nx ∨ ny < 0 ∨ (h : ℤ) ≤ ny then st
  else
    let ni : ℕ := ny.toNat * w + nx.toNat
    if st.map.getD ni 0 ≠ -1 then st
    else
      match data[ni * 4]?, data[ni * 4 + 1]?, data[ni * 4 + 2]? with
      | some nr, some ng, some nb =>
          if distLE (((bR : ℤ) - nr) ^ 2 + ((bG : ℤ) - ng) ^ 2 + ((bB : ℤ) - nb) ^ 2) tol then
            { map := st.map.set ni (cur : ℤ), size := st.size + 1,
              sumR := st.sumR + nr, sumG := st.sumG + ng, sumB := st.sumB + nb,
              count := st.count + 1, stack := (nx.toNat, ny.toNat) :: st.stack }
          else st
      | _, _, _ => st

/-- The `while (stack.length > 0)` loop: pop, then visit the four
neighbours in source order (pushes land on top of the stack, as in the
source's array `push`/`pop`). -/
def fillLoop (data : List ℕ) (w h : ℕ) (tol : ℚ) (cur bR bG bB : ℕ) :
    ℕ → FillState → FillState
  | 0, st => st
  | fuel + 1, st =>
      match st.stack with
      | [] => st
      | (cx, cy) :: rest =>
          fillLoop data w h tol cur bR bG bB fuel
            (segDirs.foldl (fillDir data w h tol cur bR bG bB cx cy)
              { st with stack := rest })

/-- Growth-phase state: the segment map plus the per-segment size and
finalized mean-colour arenas (dense ids = list position). -/
structure GrowState where
  map : List ℤ
  sizes : List ℕ
  colors : List (ℕ × ℕ × ℕ)
deriving Repr

/-- One `floodFill(x, y, baseR, baseG, baseB)` call: seed, drain the
stack, then finalize the mean colour with `Math.round`. -/
def floodFill (data : List ℕ) (w h : ℕ) (tol : ℚ) (gs : GrowState)
    (x y bR bG bB : ℕ) : GrowState :=
  let cur := gs.sizes.length
  let st := fillLoop data w h tol cur bR bG bB (w * h + 1)
    { map := gs.map.set (y * w + x) (cur : ℤ), size := 1,
      sumR := bR, sumG := bG, sumB := bB, count := 1, stack := [(x, y)] }
  { map := st.map,
    sizes := gs.sizes ++ [st.size],
    colors := gs.colors ++
      [((jsRound ((st.sumR : ℚ) / st.count)).toNat,
        (jsRound ((st.sumG : ℚ) / st.count)).toNat,
        (jsRound ((st.sumB : ℚ) / st.count)).toNat)] }

/-- The raster growth scan: each still-unassigned pixel seeds a new
segment with its own colour (in-range reads for any buffer satisfying the
`PixelBuffer` invariant). -/
def segGrowth (data : List ℕ) (w h : ℕ) (tol : ℚ) : GrowState :=
  (allPixels w h).foldl
    (fun gs p =>
      if gs.map.getD (p.2 * w + p.1) 0 ≠ -1 then gs
      else
        floodFill data w h tol gs p.1 p.2
          (data.getD ((p.2 * w + p.1) * 4) 0)
          (data.getD ((p.2 * w + p.1) * 4 + 1) 0)
          (data.getD ((p.2 * w + p.1) * 4 + 2) 0))
    { map := List.replicate (w * h) (-1), sizes := [], colors := [] }

/-- The neighbour-set scan for undersized segment `i`: full raster scan of
its pixels, collecting `mergeMap[neighbourSegment]` of raw 4-neighbours
that are neither `i` nor unassigned, deduplicated in insertion order (the
source's `Set`). -/
def segNeighborCandidates (map : List ℤ) (mm : List ℕ) (w h : ℕ) (i : ℕ) : List ℕ :=
  (allPixels w h).foldl
    (fun acc p =>
      if map.getD (p.2 * w + p.1) 0 = (i : ℤ) then
        segDirs.foldl
          (fun acc d =>
            let nx : ℤ := (p.1 : ℤ) + d.1
            let ny : ℤ := (p.2 : ℤ) + d.2
            if nx < 0 ∨ (w : ℤ) ≤ nx ∨ ny < 0 ∨ (h : ℤ) ≤ ny then acc
            else
              let ns : ℤ := map.getD (ny.toNat * w + nx.toNat) 0
              if ns ≠ (i : ℤ) ∧ ns ≠ -1 then
                if mm.getD ns.toNat 0 ∈ acc then acc else acc ++ [mm.getD ns.toNat 0]
              else acc)
          acc
      else acc)
    []

/-- Squared Euclidean distance between two mean colours; the source
compares `Math.sqrt` of these, and `√a < √b ↔ a < b` on integers. -/
def colorDist2 (c1 c2 : ℕ × ℕ × ℕ) : ℤ :=
  ((c1.1 : ℤ) - c2.1) ^ 2 + ((c1.2.1 : ℤ) - c2.2.1) ^ 2 + ((c1.2.2 : ℤ) - c2.2.2) ^ 2

/-- `bestNeighbor`: first strict minimum of the colour distance over the
candidate list (`minColorDiff` starts at `Infinity`, so the first
candidate is always taken); `none` is the source's `-1`. -/
def bestNeighbor (colors : List (ℕ × ℕ × ℕ)) (i : ℕ) (cands : List ℕ) : Option ℕ :=
  (cands.foldl
    (fun acc cand =>
      match acc with
      | none => some (colorDist2 (colors.getD i (0, 0, 0)) (colors.getD cand (0, 0, 0)), cand)
      | some (d0, b0) =>
          if colorDist2 (colors.getD i (0, 0, 0)) (colors.getD cand (0, 0, 0)) < d0 then
            some (colorDist2 (colors.getD i (0, 0, 0)) (colors.getD cand (0, 0, 0)), cand)
          else some (d0, b0))
    none).map fun a => a.2

/-- The merge pass: every segment with `pixelCount < minSize` is pointed
at its colour-nearest current neighbour target (if any). -/
def segMergePass (map : List ℤ) (sizes : List ℕ) (colors : List (ℕ × ℕ × ℕ))
    (w h : ℕ) (minSize : ℚ) : List ℕ :=
  (List.range sizes.length).foldl
    (fun mm i =>
      if (sizes.getD i 0 : ℚ) < minSize then
        match bestNeighbor colors i (segNeighborCandidates map mm w h i) with
        | some b => mm.set i b
        | none => mm
      else mm)
    (List.range sizes.length)

/-- `while (mergeMap[target] !== target) target = mergeMap[target]`: a
chain still unfinished after `mm.length` hops revisits an id, so it never
reaches a fixed point; `none` means the source loop runs forever. -/
def resolveChain (mm : List ℕ) : ℕ → ℕ → Option ℕ
  | 0, _ => none
  | fuel + 1, t => if mm.getD t t = t then some t else resolveChain mm fuel (mm.getD t t)

/-- The flatten pass (`mergeMap[i] = target`), which mutates the map it is
chasing. -/
def segResolve (mm0 : List ℕ) : Option (List ℕ) :=
  (List.range mm0.length).foldl
    (fun acc i => do
      let m ← acc
      let t ← resolveChain m (m.length + 1) i
      pure (m.set i t))
    (some mm0)

/-- The source's `Set` of post-merge representatives, insertion order. -/
def uniqueSegments (mm : List ℕ) : List ℕ :=
  mm.foldl (fun acc v => if v ∈ acc then acc else acc ++ [v]) []

/-- `assignColorsToSegments`: association list segment id ↦ display
colour.  `rnd i` models the `Math.random()` drawn for the `i`-th segment
of the list in the `preserveBrightness` scheme. -/
def assignColorsToSegments (rnd : ℕ → ℚ) (segmentList : List ℕ)
    (segColors : List (ℕ × ℕ × ℕ)) (colorScheme : String) : List (ℕ × (ℤ × ℤ × ℤ)) :=
  if colorScheme = "pastel" then
    (List.range segmentList.length).map fun i =>
      (segmentList.getD i 0, hsvToRgb ((i : ℚ) / segmentList.length * 360) (4/10) (95/100))
  else if colorScheme = "grayscale" then
    (List.range segmentList.length).map fun i =>
      (segmentList.getD i 0,
        (255 - jsRound ((i : ℚ) / segmentList.length * 220),
         255 - jsRound ((i : ℚ) / segmentList.length * 220),
         255 - jsRound ((i : ℚ) / segmentList.length * 220)))
  else if colorScheme = "highContrast" then
    (List.range segmentList.length).map fun i =>
      (segmentList.getD i 0, hsvToRgb (jsMod ((i : ℚ) * (1375/10)) 360) 1 1)
  else if colorScheme = "preserveBrightness" then
    (List.range segmentList.length).map fun i =>
      let c := segColors.getD (segmentList.getD i 0) (0, 0, 0)
      let brightness := ((c.1 : ℚ) * (299/1000) + (c.2.1 : ℚ) * (587/1000) +
        (c.2.2 : ℚ) * (114/1000)) / 255
      (segmentList.getD i 0, hsvToRgb (rnd i * 360) (8/10) brightness)
  else
    (List.range segmentList.length).map fun i =>
      (segmentList.getD i 0, hsvToRgb ((i : ℚ) / segmentList.length * 360) (8/10) (9/10))

/-- `ToUint8Clamp` of an integer store. -/
def intToByte (z : ℤ) : ℕ := min 255 z.toNat

/-- The recolouring pass: every assigned pixel is painted with its
representative's colour when one was assigned; alpha untouched. -/
def recolor (data : List ℕ) (map : List ℤ) (mm : List ℕ)
    (colors : List (ℕ × (ℤ × ℤ × ℤ))) (w h : ℕ) : List ℕ :=
  (allPixels w h).foldl
    (fun acc p =>
      let idx := p.2 * w + p.1
      let seg := map.getD idx (-1)
      if seg ≠ -1 then
        match (colors.find? fun e => e.1 = mm.getD seg.toNat 0) with
        | some e => writeRGB acc idx (intToByte e.2.1) (intToByte e.2.2.1) (intToByte e.2.2.2)
        | none => acc
      else acc)
    data

/-- `applySegmentation`; `none` models the source hanging in the
merge-chain flatten loop. -/
def applySegmentation (rnd : ℕ → ℚ) (img : ImageData) (tol minSize : ℚ)
    (colorScheme : String) : Option ImageData :=
  let gs := segGrowth img.data img.width img.height tol
  match segResolve (segMergePass gs.map gs.sizes gs.colors img.width img.height minSize) with
  | none => none
  | some mm =>
      some ⟨img.width, img.height,
        recolor img.data gs.map mm
          (assignColorsToSegments rnd (uniqueSegments mm) gs.colors colorScheme)
          img.width img.height⟩

/-! ## The app's transformation dispatch (`applyTransformation`) -/

structure TransformParams where
  contrastValue : ℚ
  brightnessValue : ℚ
  sharpnessValue : ℚ
  thresholdValue : ℚ
  cannyLow : ℕ
  cannyHigh : ℕ
  segmentTolerance : ℚ
  segmentMinSize : ℚ
  colorScheme : String

structure Transform where
  type : String
  params : TransformParams

/-- The `switch (type)` dispatch; the default case returns the input
buffer unchanged.  The result is `Option`-valued only because the
segmentation case can diverge. -/
def applyTransformation (rnd : ℕ → ℚ) (imageData : ImageData) (transform : Transform) :
    Option ImageData :=
  if transform.type = "contrast" then
    some (applyContrast imageData transform.params.contrastValue)
  else if transform.type = "brightness" then
    some (applyBrightness imageData transform.params.brightnessValue)
  else if transform.type = "sharpening" then
    some (applySharpen imageData transform.params.sharpnessValue)
  else if transform.type = "threshold" then
    some (applyThreshold imageData transform.params.thresholdValue)
  else if transform.type = "grayscale" then
    some (applyGrayscale imageData)
  else if transform.type = "edges" then
    some (applySobelEdgeDetection imageData)
  else if transform.type = "canny" then
    some (applyCannyEdgeDetection imageData transform.params.cannyLow
      transform.params.cannyHigh)
  else if transform.type = "segmentation" then
    applySegmentation rnd imageData transform.params.segmentTolerance
      transform.params.segmentMinSize transform.params.colorScheme
  else
    some imageData

/-- A 4×3 buffer (three colours `(0,0,0)`, `(10,0,0)`, `(30,0,0)`) on
which the segmentation merge pass produces a two-cycle. -/
def seg43data : List ℕ :=
  [10, 0, 0, 255, 0, 0, 0, 255, 30, 0, 0, 255, 0, 0, 0, 255,
   30, 0, 0, 255, 30, 0, 0, 255, 10, 0, 0, 255, 0, 0, 0, 255,
   10, 0, 0, 255, 0, 0, 0, 255, 0, 0, 0, 255, 0, 0, 0, 255]

/-! ## The platform `ImageData` constructor -/

/-- Errors of the embedding: the two `DOMException`s thrown by
`new ImageData(data, w, h)` — `InvalidStateError` when the byte length is
not a nonzero multiple of 4, `IndexSizeError` when it is but does not
match `4*w*h` — and the `InvalidBufferError` that the specification
postulates (no code raises it). -/
inductive JSError
  | indexSize
  | invalidState
  | invalidBuffer
deriving DecidableEq, Repr

/-- The error `new ImageData(data, w, h)` throws on a byte array of length
`n` that does not pass its checks: `InvalidStateError` when `n` is zero or
not a multiple of 4, `IndexSizeError` otherwise. -/
def constructorError (n : ℕ) : JSError :=
  if n = 0 ∨ n % 4 ≠ 0 then .invalidState else .indexSize

/-- `new ImageData(data, w, h)`: first rejects a byte array whose length is
not a nonzero multiple of 4 (`InvalidStateError`), then one whose pixel
count does not match `w*h` (`IndexSizeError`). -/
def mkImageData (data : List ℕ) (w h : ℕ) : Except JSError ImageData :=
  if data.length = 0 ∨ data.length % 4 ≠ 0 then .error .invalidState
  else if data.length = 4 * (w * h) then .ok ⟨w, h, data⟩
  else .error .indexSize

/-- `applyContrast` including the final `new ImageData(...)` step. -/
def applyContrastE (img : ImageData) (contrast : ℚ) : Except JSError ImageData :=
  mkImageData (contrastData (contrastFactor contrast) img.data) img.width img.height

/-- `applyBrightness` including the final `new ImageData(...)` step. -/
def applyBrightnessE (img : ImageData) (brightness : ℚ) : Except JSError ImageData :=
  mkImageData (brightnessData (brightness / 100) img.data) img.width img.height

/-- `applyGrayscale` including the final `new ImageData(...)` step. -/
def applyGrayscaleE (img : ImageData) : Except JSError ImageData :=
  mkImageData (grayData img.data) img.width img.height

/-- `applyThreshold` including the final `new ImageData(...)` step. -/
def applyThresholdE (img : ImageData) (threshold : ℚ) : Except JSError ImageData :=
  mkImageData (threshData threshold (grayData img.data)) img.width img.height

/-- `applySharpen` including its early `return imageData` at amount 0 —
which constructs nothing and so can raise nothing — and the final
`new ImageData(...)` step otherwise. -/
def applySharpenE (img : ImageData) (amount : ℚ) : Except JSError ImageData :=
  if amount = 0 then .ok img
  else mkImageData (sharpenData img.data img.width img.height (amount / 10))
    img.width img.height

/-! ## Rounding lemmas -/

theorem ratFloor_eq_floor (q : ℚ) : q.floor = ⌊q⌋ :=
  (Rat.floor_def' q).trans Rat.floor_def.symm

theorem clampRoundHE_le_255 (q : ℚ) : clampRoundHE q ≤ 255 := by
  unfold clampRoundHE
  rw [ratFloor_eq_floor]
  split
  · omega
  split
  · omega
  next h0 h255 =>
    push_neg at h0 h255
    have hf : (⌊q⌋ : ℤ) ≤ 254 := by
      have h2 : ⌊q⌋ < 255 := Int.floor_lt.mpr (by push_cast; linarith)
      omega
    split
    · omega
    split
    · omega
    split
    · omega
    · omega

theorem clampRoundHE_coe_nat (v : ℕ) (h : v ≤ 255) : clampRoundHE (v : ℚ) = v := by
  unfold clampRoundHE
  rw [ratFloor_eq_floor]
  split
  next h0 =>
    have hge : (0 : ℚ) ≤ (v : ℚ) := by positivity
    have : (v : ℚ) = 0 := le_antisymm h0 hge
    exact_mod_cast this.symm
  split
  next _ h255 =>
    have : (255 : ℚ) ≤ v := h255
    have : (255 : ℕ) ≤ v := by exact_mod_cast this
    omega
  next _ _ =>
    have hf : ⌊(v : ℚ)⌋ = (v : ℤ) := Int.floor_natCast v
    rw [hf]
    have : (v : ℚ) - ((v : ℤ) : ℚ) = 0 := by push_cast; ring
    rw [this]
    norm_num

theorem jsRound_le (q : ℚ) : (jsRound q : ℚ) ≤ q + 1/2 := by
  unfold jsRound
  rw [ratFloor_eq_floor]
  exact Int.floor_le _

theorem jsRound_gt (q : ℚ) : q - 1/2 < (jsRound q : ℚ) := by
  unfold jsRound
  rw [ratFloor_eq_floor]
  have := Int.lt_floor_add_one (q + 1/2)
  linarith

theorem jsRound_mono {a b : ℚ} (h : a ≤ b) : jsRound a ≤ jsRound b := by
  unfold jsRound
  rw [ratFloor_eq_floor, ratFloor_eq_floor]
  exact Int.floor_le_floor (by linarith)

theorem jsMod_eq_self {a b : ℚ} (hb : 0 < b) (h1 : -b < a) (h2 : a < b) :
    jsMod a b = a := by
  unfold jsMod ratTrunc
  rcases le_or_lt 0 a with ha | ha
  · rw [if_pos (by positivity), ratFloor_eq_floor]
    have hfl : ⌊a / b⌋ = 0 := by
      rw [Int.floor_eq_zero_iff, Set.mem_Ico]
      exact ⟨by positivity, by rw [div_lt_one hb]; exact h2⟩
    rw [hfl]
    push_cast
    ring
  · have hneg : a / b < 0 := div_neg_of_neg_of_pos ha hb
    rw [if_neg (by linarith), ratFloor_eq_floor]
    have hfl : ⌊-(a / b)⌋ = 0 := by
      rw [Int.floor_eq_zero_iff, Set.mem_Ico]
      refine ⟨by linarith, ?_⟩
      have hlt : -a < b := by linarith
      have : -(a / b) = (-a) / b := by ring
      rw [this, div_lt_one hb]
      exact hlt
    rw [hfl]
    push_cast
    ring

theorem jsMod_sub_self {a b : ℚ} (hb : 0 < b) (h1 : b ≤ a) (h2 : a < 2 * b) :
    jsMod a b = a - b := by
  unfold jsMod ratTrunc
  rw [if_pos (div_nonneg (by linarith) hb.le), ratFloor_eq_floor]
  have hfl : ⌊a / b⌋ = 1 := by
    rw [Int.floor_eq_iff]
    constructor
    · push_cast
      rw [le_div_iff hb]
      linarith
    · push_cast
      rw [div_lt_iff hb]
      linarith
  rw [hfl]
  push_cast
  ring

/-- Normalization in `hsvToRgb` is the identity on `[0, 360)`. -/
theorem hsv_norm_id {h : ℚ} (h0 : 0 ≤ h) (h360 : h < 360) :
    jsMod (jsMod h 360 + 360) 360 = h := by
  rw [jsMod_eq_self (by norm_num) (by linarith) h360,
    jsMod_sub_self (by norm_num) (by linarith) (by linarith)]
  ring

theorem sqrtIter_eq_iter (n : ℕ) :
    ∀ (fuel guess : ℕ), guess ≤ fuel → sqrtIter n fuel guess = Nat.sqrt.iter n guess
  | 0, 0, _ => by
      rw [Nat.sqrt.iter]
      simp [sqrtIter]
  | 0, g + 1, hg => absurd hg (by omega)
  | fuel + 1, guess, hg => by
      rw [Nat.sqrt.iter]
      simp only [sqrtIter]
      by_cases hlt : (guess + n / guess) / 2 < guess
      · rw [if_pos hlt, dif_pos hlt]
        exact sqrtIter_eq_iter n fuel _ (by omega)
      · rw [if_neg hlt, dif_neg hlt]

theorem isqrt_eq_sqrt (n : ℕ) : isqrt n = Nat.sqrt n := by
  unfold isqrt Nat.sqrt
  by_cases h : n ≤ 1
  · rw [if_pos h, if_pos h]
  · rw [if_neg h, if_neg h, sqrtIter_eq_iter n (n / 2) (n / 2) le_rfl]

/-! ## Pixel-write and fold lemmas -/

theorem length_writePixel (acc : List ℕ) (m r g b a : ℕ) :
    (writePixel acc m r g b a).length = acc.length := by
  simp [writePixel]

theorem length_writeRGB (acc : List ℕ) (m r g b : ℕ) :
    (writeRGB acc m r g b).length = acc.length := by
  simp [writeRGB]

theorem writePixel_getElem?_ne (acc : List ℕ) (m r g b a i : ℕ) (h : i / 4 ≠ m) :
    (writePixel acc m r g b a)[i]? = acc[i]? := by
  unfold writePixel
  rw [List.getElem?_set_ne (by omega), List.getElem?_set_ne (by omega),
    List.getElem?_set_ne (by omega), List.getElem?_set_ne (by omega)]

theorem writeRGB_getElem?_ne (acc : List ℕ) (m r g b i : ℕ) (h : i / 4 ≠ m) :
    (writeRGB acc m r g b)[i]? = acc[i]? := by
  unfold writeRGB
  rw [List.getElem?_set_ne (by omega), List.getElem?_set_ne (by omega),
    List.getElem?_set_ne (by omega)]

theorem writePixel_getElem?_r (acc : List ℕ) (m r g b a : ℕ) (h : m * 4 < acc.length) :
    (writePixel acc m r g b a)[m * 4]? = some r := by
  unfold writePixel
  rw [List.getElem?_set_ne (by omega), List.getElem?_set_ne (by omega),
    List.getElem?_set_ne (by omega), List.getElem?_set_self (by simpa using h)]

theorem writePixel_getElem?_g (acc : List ℕ) (m r g b a : ℕ) (h : m * 4 + 1 < acc.length) :
    (writePixel acc m r g b a)[m * 4 + 1]? = some g := by
  unfold writePixel
  rw [List.getElem?_set_ne (by omega), List.getElem?_set_ne (by omega),
    List.getElem?_set_self (by simpa using h)]

theorem writePixel_getElem?_b (acc : List ℕ) (m r g b a : ℕ) (h : m * 4 + 2 < acc.length) :
    (writePixel acc m r g b a)[m * 4 + 2]? = some b := by
  unfold writePixel
  rw [List.getElem?_set_ne (by omega), List.getElem?_set_self (by simpa using h)]

theorem writePixel_getElem?_a (acc : List ℕ) (m r g b a : ℕ) (h : m * 4 + 3 < acc.length) :
    (writePixel acc m r g b a)[m * 4 + 3]? = some a := by
  unfold writePixel
  rw [List.getElem?_set_self (by simpa using h)]

theorem writeRGB_getElem?_r (acc : List ℕ) (m r g b : ℕ) (h : m * 4 < acc.length) :
    (writeRGB acc m r g b)[m * 4]? = some r := by
  unfold writeRGB
  rw [List.getElem?_set_ne (by omega), List.getElem?_set_ne (by omega),
    List.getElem?_set_self (by simpa using h)]

theorem foldl_length_inv (step : List ℕ → ℕ × ℕ → List ℕ)
    (hstep : ∀ acc p, (step acc p).length = acc.length) :
    ∀ (ps : List (ℕ × ℕ)) (acc : List ℕ), (ps.foldl step acc).length = acc.length
  | [], _ => rfl
  | p :: ps, acc => by
      rw [List.foldl_cons, foldl_length_inv step hstep ps, hstep]

theorem foldl_getElem?_untouched (step : List ℕ → ℕ × ℕ → List ℕ) (i : ℕ) :
    ∀ (ps : List (ℕ × ℕ)) (acc : List ℕ),
      (∀ acc' p, p ∈ ps → (step acc' p)[i]? = acc'[i]?) →
      (ps.foldl step acc)[i]? = acc[i]?
  | [], _, _ => rfl
  | p :: ps, acc, h => by
      rw [List.foldl_cons,
        foldl_getElem?_untouched step i ps _ fun acc' q hq => h acc' q (by simp [hq]),
        h acc p (by simp)]

theorem foldl_getElem?_preserved (step : List ℕ → ℕ × ℕ → List ℕ) (i v : ℕ) :
    ∀ (ps : List (ℕ × ℕ)) (acc : List ℕ),
      (∀ acc' p, p ∈ ps → acc'[i]? = some v → (step acc' p)[i]? = some v) →
      acc[i]? = some v → (ps.foldl step acc)[i]? = some v
  | [], _, _, hv => hv
  | p :: ps, acc, h, hv => by
      rw [List.foldl_cons]
      exact foldl_getElem?_preserved step i v ps _
        (fun acc' q hq => h acc' q (by simp [hq])) (h acc p (by simp) hv)

/-! ## Index and membership lemmas -/

theorem lin_lt {w h x y : ℕ} (hx : x < w) (hy : y < h) : y * w + x < w * h := by
  calc y * w + x < y * w + w := by omega
  _ = (y + 1) * w := by ring
  _ ≤ h * w := Nat.mul_le_mul_right w hy
  _ = w * h := Nat.mul_comm h w

theorem lin_inj {w x y x' y' : ℕ} (hx : x < w) (hx' : x' < w)
    (h : y * w + x = y' * w + x') : x = x' ∧ y = y' := by
  have hxx : x = x' := by
    have h1 : (y * w + x) % w = (y' * w + x') % w := congrArg (· % w) h
    rwa [Nat.add_comm (y * w) x, Nat.add_comm (y' * w) x',
      Nat.add_mul_mod_self_right, Nat.add_mul_mod_self_right,
      Nat.mod_eq_of_lt hx, Nat.mod_eq_of_lt hx'] at h1
  refine ⟨hxx, ?_⟩
  have hw : 0 < w := Nat.pos_of_ne_zero (by omega)
  have : y * w = y' * w := by omega
  exact Nat.eq_of_mul_eq_mul_right hw this

theorem mem_interiorPixels {w h x y : ℕ} :
    (x, y) ∈ interiorPixels w h ↔ 1 ≤ x ∧ x < w - 1 ∧ 1 ≤ y ∧ y < h - 1 := by
  simp only [interiorPixels, List.mem_flatMap, List.mem_map, List.mem_range]
  constructor
  · rintro ⟨j, hj, i, hi, heq⟩
    injection heq with h1 h2
    omega
  · rintro ⟨hx1, hxw, hy1, hyh⟩
    exact ⟨y - 1, by omega, x - 1, by omega, by simp [Nat.sub_add_cancel hx1, Nat.sub_add_cancel hy1]⟩

theorem mem_allPixels {w h x y : ℕ} :
    (x, y) ∈ allPixels w h ↔ x < w ∧ y < h := by
  simp only [allPixels, List.mem_flatMap, List.mem_map, List.mem_range]
  constructor
  · rintro ⟨j, hj, i, hi, heq⟩
    injection heq with h1 h2
    omega
  · rintro ⟨hx, hy⟩
    exact ⟨y, hy, x, hx, rfl⟩

/-! ## Chunk-loop length preservation -/

theorem contrastData_length (f : ℚ) :
    ∀ l : List ℕ, (contrastData f l).length = l.length
  | r :: g :: b :: a :: rest => by
      simp only [contrastData, List.length_cons, contrastData_length f rest]
  | [r, g, b] => rfl
  | [r, g] => rfl
  | [r] => rfl
  | [] => rfl

theorem brightnessData_length (f : ℚ) :
    ∀ l : List ℕ, (brightnessData f l).length = l.length
  | r :: g :: b :: a :: rest => by
      simp only [brightnessData, List.length_cons, brightnessData_length f rest]
  | [r, g, b] => rfl
  | [r, g] => rfl
  | [r] => rfl
  | [] => rfl

theorem grayData_length : ∀ l : List ℕ, (grayData l).length = l.length
  | r :: g :: b :: a :: rest => by
      simp only [grayData, List.length_cons, grayData_length rest]
  | [r, g, b] => rfl
  | [r, g] => rfl
  | [r] => rfl
  | [] => rfl

theorem threshData_length (t : ℚ) :
    ∀ l : List ℕ, (threshData t l).length = l.length
  | r :: g :: b :: a :: rest => by
      simp only [threshData, List.length_cons, threshData_length t rest]
  | [r, g, b] => rfl
  | [r, g] => rfl
  | [r] => rfl
  | [] => rfl


/-! ## Constant images under Sobel -/

theorem replicatePixel_length (r g b a : ℕ) :
    ∀ n, (replicatePixel n r g b a).length = 4 * n
  | 0 => rfl
  | n + 1 => by
      simp only [replicatePixel, List.length_cons, replicatePixel_length r g b a n]
      omega

theorem replicatePixel_getElem4 (r g b a : ℕ) :
    ∀ (n k : ℕ), k < n →
      (replicatePixel n r g b a)[k * 4]? = some r ∧
      (replicatePixel n r g b a)[k * 4 + 1]? = some g ∧
      (replicatePixel n r g b a)[k * 4 + 2]? = some b ∧
      (replicatePixel n r g b a)[k * 4 + 3]? = some a
  | n + 1, 0, _ => by simp [replicatePixel]
  | n + 1, k + 1, hk => by
      have ih := replicatePixel_getElem4 r g b a n k (by omega)
      refine ⟨?_, ?_, ?_, ?_⟩
      · rw [show (k + 1) * 4 = k * 4 + 1 + 1 + 1 + 1 by ring]
        simp only [replicatePixel, List.getElem?_cons_succ]
        exact ih.1
      · rw [show (k + 1) * 4 + 1 = k * 4 + 1 + 1 + 1 + 1 + 1 by ring]
        simp only [replicatePixel, List.getElem?_cons_succ]
        exact ih.2.1
      · rw [show (k + 1) * 4 + 2 = k * 4 + 2 + 1 + 1 + 1 + 1 by ring]
        simp only [replicatePixel, List.getElem?_cons_succ]
        exact ih.2.2.1
      · rw [show (k + 1) * 4 + 3 = k * 4 + 3 + 1 + 1 + 1 + 1 by ring]
        simp only [replicatePixel, List.getElem?_cons_succ]
        exact ih.2.2.2

theorem grayData_replicatePixel (r g b a : ℕ) :
    ∀ n, grayData (replicatePixel n r g b a)
      = replicatePixel n (clampRoundHE (lumin r g b)) (clampRoundHE (lumin r g b))
          (clampRoundHE (lumin r g b)) a
  | 0 => rfl
  | n + 1 => by
      simp only [replicatePixel, grayData, grayData_replicatePixel r g b a n]

theorem readZ_replicatePixel4 (v a : ℕ) {n k : ℕ} (hk : k < n) :
    readZ (replicatePixel n v v v a) (k * 4) = some (v : ℤ) := by
  unfold readZ
  rw [(replicatePixel_getElem4 v v v a n k hk).1]
  rfl

theorem sobelGrad_const {w h n v a x y : ℕ} (hn : n = w * h)
    (hx1 : 1 ≤ x) (hxw : x < w - 1) (hy1 : 1 ≤ y) (hyh : y < h - 1) :
    sobelGrad (replicatePixel n v v v a) w x y = some (0, 0) := by
  have hb : ∀ x' y', x' < w → y' < h → y' * w + x' < n := by
    intro x' y' hx' hy'
    rw [hn]
    exact lin_lt hx' hy'
  unfold sobelGrad
  rw [readZ_replicatePixel4 v a (hb _ _ (by omega) (by omega)),
    readZ_replicatePixel4 v a (hb _ _ (by omega) (by omega)),
    readZ_replicatePixel4 v a (hb _ _ (by omega) (by omega)),
    readZ_replicatePixel4 v a (hb _ _ (by omega) (by omega)),
    readZ_replicatePixel4 v a (hb _ _ (by omega) (by omega)),
    readZ_replicatePixel4 v a (hb _ _ (by omega) (by omega)),
    readZ_replicatePixel4 v a (hb _ _ (by omega) (by omega)),
    readZ_replicatePixel4 v a (hb _ _ (by omega) (by omega)),
    readZ_replicatePixel4 v a (hb _ _ (by omega) (by omega))]
  simp only [Option.bind_some, Option.some_bind, Option.pure_def]
  refine congrArg some (Prod.ext ?_ ?_) <;> dsimp only <;> ring

theorem sobelMag_const {w h n v a x y : ℕ} (hn : n = w * h)
    (hx1 : 1 ≤ x) (hxw : x < w - 1) (hy1 : 1 ≤ y) (hyh : y < h - 1) :
    sobelMag (replicatePixel n v v v a) w x y = 0 := by
  unfold sobelMag
  rw [sobelGrad_const hn hx1 hxw hy1 hyh]
  rfl

theorem sobelStep_length (gray : List ℕ) (w : ℕ) (acc : List ℕ) (p : ℕ × ℕ) :
    (sobelStep gray w acc p).length = acc.length :=
  length_writePixel _ _ _ _ _ _

theorem sobelBorderStep_length (w h : ℕ) (acc : List ℕ) (p : ℕ × ℕ) :
    (sobelBorderStep w h acc p).length = acc.length := by
  unfold sobelBorderStep
  split
  · exact length_writePixel _ _ _ _ _ _
  · rfl

theorem sobelStep_fold_written (gray : List ℕ) (w x y : ℕ) :
    ∀ (ps : List (ℕ × ℕ)) (acc : List ℕ),
      (∀ p ∈ ps, sobelMag gray w p.1 p.2 = 0) →
      (x, y) ∈ ps →
      (y * w + x) * 4 + 3 < acc.length →
      (ps.foldl (sobelStep gray w) acc)[(y * w + x) * 4]? = some 0 ∧
      (ps.foldl (sobelStep gray w) acc)[(y * w + x) * 4 + 1]? = some 0 ∧
      (ps.foldl (sobelStep gray w) acc)[(y * w + x) * 4 + 2]? = some 0 ∧
      (ps.foldl (sobelStep gray w) acc)[(y * w + x) * 4 + 3]? = some 255
  | p :: ps, acc, hmag, hmem, hlen => by
    rw [List.foldl_cons]
    by_cases hp : p = (x, y)
    · subst hp
      have hm0 : sobelMag gray w x y = 0 := hmag (x, y) (by simp)
      have hstep : sobelStep gray w acc (x, y) = writePixel acc (y * w + x) 0 0 0 255 := by
        simp only [sobelStep, hm0]
      rw [hstep]
      have hpres : ∀ (i v : ℕ),
          ((i = (y * w + x) * 4 ∨ i = (y * w + x) * 4 + 1 ∨ i = (y * w + x) * 4 + 2) ∧ v = 0 ∨
            i = (y * w + x) * 4 + 3 ∧ v = 255) →
          ∀ acc' q, q ∈ ps → acc'[i]? = some v → (sobelStep gray w acc' q)[i]? = some v := by
        intro i v hval acc' q hq hv
        have hi : i < acc'.length := by
          by_contra hc
          rw [List.getElem?_eq_none (by omega)] at hv
          cases hv
        by_cases hqm : q.2 * w + q.1 = y * w + x
        · have hmq : sobelMag gray w q.1 q.2 = 0 := hmag q (by simp [hq])
          unfold sobelStep
          rw [hmq, hqm]
          rcases hval with ⟨hior, rfl⟩ | ⟨rfl, rfl⟩
          · rcases hior with rfl | rfl | rfl
            · exact writePixel_getElem?_r _ _ _ _ _ _ (by omega)
            · exact writePixel_getElem?_g _ _ _ _ _ _ (by omega)
            · exact writePixel_getElem?_b _ _ _ _ _ _ (by omega)
          · exact writePixel_getElem?_a _ _ _ _ _ _ (by omega)
        · unfold sobelStep
          have hd : i / 4 ≠ q.2 * w + q.1 := by
            rcases hval with ⟨hior, _⟩ | ⟨hieq, _⟩
            · rcases hior with rfl | rfl | rfl <;> omega
            · omega
          rw [writePixel_getElem?_ne _ _ _ _ _ _ _ hd, hv]
      have hlen' : (y * w + x) * 4 + 3 < (writePixel acc (y * w + x) 0 0 0 255).length := by
        rw [length_writePixel]; exact hlen
      refine ⟨?_, ?_, ?_, ?_⟩
      · exact foldl_getElem?_preserved _ _ _ ps _
          (hpres _ _ (Or.inl ⟨Or.inl rfl, rfl⟩))
          (writePixel_getElem?_r _ _ _ _ _ _ (by omega))
      · exact foldl_getElem?_preserved _ _ _ ps _
          (hpres _ _ (Or.inl ⟨Or.inr (Or.inl rfl), rfl⟩))
          (writePixel_getElem?_g _ _ _ _ _ _ (by omega))
      · exact foldl_getElem?_preserved _ _ _ ps _
          (hpres _ _ (Or.inl ⟨Or.inr (Or.inr rfl), rfl⟩))
          (writePixel_getElem?_b _ _ _ _ _ _ (by omega))
      · exact foldl_getElem?_preserved _ _ _ ps _
          (hpres _ _ (Or.inr ⟨rfl, rfl⟩))
          (writePixel_getElem?_a _ _ _ _ _ _ (by omega))
    · have hmem' : (x, y) ∈ ps := by
        rcases List.mem_cons.mp hmem with h1 | h1
        · exact absurd h1.symm hp
        · exact h1
      exact sobelStep_fold_written gray w x y ps _
        (fun q hq => hmag q (by simp [hq])) hmem'
        (by rw [sobelStep_length]; exact hlen)

theorem sobelBorderStep_fold_written (w h x y : ℕ)
    (hbord : x = 0 ∨ x = w - 1 ∨ y = 0 ∨ y = h - 1) :
    ∀ (ps : List (ℕ × ℕ)) (acc : List ℕ),
      (x, y) ∈ ps →
      (y * w + x) * 4 + 3 < acc.length →
      (ps.foldl (sobelBorderStep w h) acc)[(y * w + x) * 4]? = some 0 ∧
      (ps.foldl (sobelBorderStep w h) acc)[(y * w + x) * 4 + 1]? = some 0 ∧
      (ps.foldl (sobelBorderStep w h) acc)[(y * w + x) * 4 + 2]? = some 0 ∧
      (ps.foldl (sobelBorderStep w h) acc)[(y * w + x) * 4 + 3]? = some 255
  | p :: ps, acc, hmem, hlen => by
    rw [List.foldl_cons]
    by_cases hp : p = (x, y)
    · subst hp
      have hstep : sobelBorderStep w h acc (x, y) = writePixel acc (y * w + x) 0 0 0 255 := by
        unfold sobelBorderStep
        rw [if_pos]
        exact hbord
      rw [hstep]
      have hpres : ∀ (i v : ℕ),
          ((i = (y * w + x) * 4 ∨ i = (y * w + x) * 4 + 1 ∨ i = (y * w + x) * 4 + 2) ∧ v = 0 ∨
            i = (y * w + x) * 4 + 3 ∧ v = 255) →
          ∀ acc' q, q ∈ ps → acc'[i]? = some v → (sobelBorderStep w h acc' q)[i]? = some v := by
        intro i v hval acc' q hq hv
        have hi : i < acc'.length := by
          by_contra hc
          rw [List.getElem?_eq_none (by omega)] at hv
          cases hv
        unfold sobelBorderStep
        split
        · by_cases hqm : q.2 * w + q.1 = y * w + x
          · rw [hqm]
            rcases hval with ⟨hior, rfl⟩ | ⟨rfl, rfl⟩
            · rcases hior with rfl | rfl | rfl
              · exact writePixel_getElem?_r _ _ _ _ _ _ (by omega)
              · exact writePixel_getElem?_g _ _ _ _ _ _ (by omega)
              · exact writePixel_getElem?_b _ _ _ _ _ _ (by omega)
            · exact writePixel_getElem?_a _ _ _ _ _ _ (by omega)
          · have hd : i / 4 ≠ q.2 * w + q.1 := by
              rcases hval with ⟨hior, _⟩ | ⟨hieq, _⟩
              · rcases hior with rfl | rfl | rfl <;> omega
              · omega
            rw [writePixel_getElem?_ne _ _ _ _ _ _ _ hd, hv]
        · exact hv
      have hlen' : (y * w + x) * 4 + 3 < (writePixel acc (y * w + x) 0 0 0 255).length := by
        rw [length_writePixel]; exact hlen
      refine ⟨?_, ?_, ?_, ?_⟩
      · exact foldl_getElem?_preserved _ _ _ ps _
          (hpres _ _ (Or.inl ⟨Or.inl rfl, rfl⟩))
          (writePixel_getElem?_r _ _ _ _ _ _ (by omega))
      · exact foldl_getElem?_preserved _ _ _ ps _
          (hpres _ _ (Or.inl ⟨Or.inr (Or.inl rfl), rfl⟩))
          (writePixel_getElem?_g _ _ _ _ _ _ (by omega))
      · exact foldl_getElem?_preserved _ _ _ ps _
          (hpres _ _ (Or.inl ⟨Or.inr (Or.inr rfl), rfl⟩))
          (writePixel_getElem?_b _ _ _ _ _ _ (by omega))
      · exact foldl_getElem?_preserved _ _ _ ps _
          (hpres _ _ (Or.inr ⟨rfl, rfl⟩))
          (writePixel_getElem?_a _ _ _ _ _ _ (by omega))
    · have hmem' : (x, y) ∈ ps := by
        rcases List.mem_cons.mp hmem with h1 | h1
        · exact absurd h1.symm hp
        · exact h1
      exact sobelBorderStep_fold_written w h x y hbord ps _ hmem'
        (by rw [sobelBorderStep_length]; exact hlen)

theorem sobelData_const (w h n v a' : ℕ) (hn : n = w * h) :
    sobelData (replicatePixel n v v v a') w h = replicatePixel n 0 0 0 255 := by
  have hlen0 : (replicatePixel n v v v a').length = 4 * n := replicatePixel_length _ _ _ _ _
  have hlenI : (sobelInterior (replicatePixel n v v v a') w h).length = 4 * n := by
    unfold sobelInterior
    rw [foldl_length_inv _ (sobelStep_length _ _), List.length_replicate, hlen0]
  have hlenB : (sobelData (replicatePixel n v v v a') w h).length = 4 * n := by
    unfold sobelData
    rw [foldl_length_inv _ (sobelBorderStep_length _ _), hlenI]
  apply List.ext_getElem?
  intro i
  by_cases hilen : i < 4 * n
  case neg =>
    rw [List.getElem?_eq_none (by omega),
      List.getElem?_eq_none (by rw [replicatePixel_length]; omega)]
  case pos =>
    have hmn : i / 4 < n := by omega
    have hw : 0 < w := by
      rcases Nat.eq_zero_or_pos w with h0 | h0
      · subst h0; rw [hn] at hmn; simp at hmn
      · exact h0
    have hh : 0 < h := by
      rcases Nat.eq_zero_or_pos h with h0 | h0
      · subst h0; rw [hn] at hmn; simp at hmn
      · exact h0
    have hm_eq : i / 4 = (i / 4 / w) * w + i / 4 % w := by
      conv_lhs => rw [← Nat.div_add_mod (i / 4) w]
      ring
    obtain ⟨x, y, c, hxw, hyh, hc4, rfl⟩ :
        ∃ x y c, x < w ∧ y < h ∧ c < 4 ∧ i = (y * w + x) * 4 + c := by
      refine ⟨i / 4 % w, i / 4 / w, i % 4, Nat.mod_lt _ hw, ?_, by omega, by omega⟩
      rw [Nat.div_lt_iff_lt_mul hw, Nat.mul_comm h w, ← hn]
      exact hmn
    have hmn' : y * w + x < n := by omega
    have hrhs := replicatePixel_getElem4 0 0 0 255 n (y * w + x) hmn'
    have hfin : ∀ l : List ℕ,
        l[(y * w + x) * 4]? = some 0 →
        l[(y * w + x) * 4 + 1]? = some 0 →
        l[(y * w + x) * 4 + 2]? = some 0 →
        l[(y * w + x) * 4 + 3]? = some 255 →
        l[(y * w + x) * 4 + c]? = (replicatePixel n 0 0 0 255)[(y * w + x) * 4 + c]? := by
      intro l h0 h1 h2 h3
      have hc : c = 0 ∨ c = 1 ∨ c = 2 ∨ c = 3 := by omega
      rcases hc with rfl | rfl | rfl | rfl
      · simpa [hrhs.1] using h0
      · rw [h1, hrhs.2.1]
      · rw [h2, hrhs.2.2.1]
      · rw [h3, hrhs.2.2.2]
    by_cases hbord : x = 0 ∨ x = w - 1 ∨ y = 0 ∨ y = h - 1
    · have hb := sobelBorderStep_fold_written w h x y hbord
        (allPixels w h) (sobelInterior (replicatePixel n v v v a') w h)
        (mem_allPixels.mpr ⟨hxw, hyh⟩)
        (by rw [hlenI]; omega)
      exact hfin _ hb.1 hb.2.1 hb.2.2.1 hb.2.2.2
    · push_neg at hbord
      obtain ⟨hb1, hb2, hb3, hb4⟩ := hbord
      have huntouched : ∀ j, ((y * w + x) * 4 ≤ j ∧ j < (y * w + x) * 4 + 4) →
          (sobelData (replicatePixel n v v v a') w h)[j]?
          = (sobelInterior (replicatePixel n v v v a') w h)[j]? := by
        intro j hj
        unfold sobelData
        apply foldl_getElem?_untouched
        intro acc' p hp
        unfold sobelBorderStep
        split
        next hcond =>
          apply writePixel_getElem?_ne
          intro hpm
          obtain ⟨hq1, hq2⟩ := @lin_inj w p.1 p.2 x y
            (mem_allPixels.mp hp).1 hxw (by rw [← hpm]; omega)
          rcases hcond with hcnd | hcnd | hcnd | hcnd <;> omega
        · rfl
      have hmag : ∀ p ∈ interiorPixels w h,
          sobelMag (replicatePixel n v v v a') w p.1 p.2 = 0 := by
        intro p hp
        obtain ⟨px, py⟩ := p
        obtain ⟨h1, h2, h3, h4⟩ := mem_interiorPixels.mp hp
        exact sobelMag_const hn h1 h2 h3 h4
      have hmm : (x, y) ∈ interiorPixels w h :=
        mem_interiorPixels.mpr ⟨by omega, by omega, by omega, by omega⟩
      have hI := sobelStep_fold_written (replicatePixel n v v v a') w x y
        (interiorPixels w h) (List.replicate (replicatePixel n v v v a').length 0)
        hmag hmm
        (by rw [List.length_replicate, hlen0]; omega)
      have hI' :
          (sobelInterior (replicatePixel n v v v a') w h)[(y * w + x) * 4]? = some 0 ∧
          (sobelInterior (replicatePixel n v v v a') w h)[(y * w + x) * 4 + 1]? = some 0 ∧
          (sobelInterior (replicatePixel n v v v a') w h)[(y * w + x) * 4 + 2]? = some 0 ∧
          (sobelInterior (replicatePixel n v v v a') w h)[(y * w + x) * 4 + 3]? = some 255 := hI
      rw [huntouched _ (by omega)]
      exact hfin _ hI'.1 hI'.2.1 hI'.2.2.1 hI'.2.2.2

/-! ## Hysteresis lemmas -/

theorem hystStep_length (w : ℕ) (acc : List ℕ) (p : ℕ × ℕ) :
    (hystStep w acc p).length = acc.length := by
  unfold hystStep
  split
  · split
    · exact length_writeRGB _ _ _ _ _
    · exact length_writeRGB _ _ _ _ _
  · rfl

/-- A pixel whose R byte reads strong (255) is never rewritten: the pass
only writes pixels currently reading weak (128). -/
theorem hystStep_preserves_255 (w : ℕ) (acc : List ℕ) (p : ℕ × ℕ) (k : ℕ)
    (hv : acc[k * 4]? = some 255) : (hystStep w acc p)[k * 4]? = some 255 := by
  unfold hystStep
  split
  next hg =>
    have hne : p.2 * w + p.1 ≠ k := by
      intro he
      rw [he, hv] at hg
      cases hg
    split
    · rw [writeRGB_getElem?_ne _ _ _ _ _ _ (by omega)]; exact hv
    · rw [writeRGB_getElem?_ne _ _ _ _ _ _ (by omega)]; exact hv
  · exact hv

theorem hysteresis_fold_preserves_255 (w k : ℕ) (ps : List (ℕ × ℕ)) (arr : List ℕ)
    (h : arr[k * 4]? = some 255) :
    (ps.foldl (hystStep w) arr)[k * 4]? = some 255 :=
  foldl_getElem?_preserved _ _ _ ps arr
    (fun acc' p _ hv => hystStep_preserves_255 w acc' p k hv) h

/-- A weak pixel in the scan list with a strong 8-neighbour is promoted:
its own byte is untouched until its turn (position linear indices are
injective), the strong neighbour is still strong at that turn, and the
promoted 255 survives the rest of the pass. -/
theorem hyst_fold_promotes (w x y : ℕ) (hxw : x < w) :
    ∀ (ps : List (ℕ × ℕ)) (arr : List ℕ),
      (∀ p ∈ ps, p.1 < w) → (x, y) ∈ ps →
      arr[(y * w + x) * 4]? = some 128 →
      (∃ idx ∈ neighbor8 w x y, arr[idx]? = some 255) →
      (ps.foldl (hystStep w) arr)[(y * w + x) * 4]? = some 255
  | p :: ps, arr, hb, hmem, h128, hstrong => by
    rw [List.foldl_cons]
    by_cases hp : p = (x, y)
    · subst hp
      have hsne : strongNeighborExists arr w x y = true := by
        unfold strongNeighborExists
        rw [List.any_eq_true]
        obtain ⟨idx, hidx, hval⟩ := hstrong
        exact ⟨idx, hidx, by rw [hval]; rfl⟩
      have hstep : hystStep w arr (x, y) = writeRGB arr (y * w + x) 255 255 255 := by
        unfold hystStep
        rw [if_pos h128, if_pos hsne]
      rw [hstep]
      have hi : (y * w + x) * 4 < arr.length := by
        by_contra hc
        rw [List.getElem?_eq_none (by omega)] at h128
        cases h128
      exact hysteresis_fold_preserves_255 w (y * w + x) ps _
        (writeRGB_getElem?_r _ _ _ _ _ hi)
    · have hmem' : (x, y) ∈ ps := by
        rcases List.mem_cons.mp hmem with h1 | h1
        · exact absurd h1.symm hp
        · exact h1
      have hne : p.2 * w + p.1 ≠ y * w + x := by
        intro he
        obtain ⟨h1, h2⟩ := lin_inj (hb p (by simp)) hxw he
        apply hp
        cases p
        simp only at h1 h2
        rw [h1, h2]
      have harr' : (hystStep w arr p)[(y * w + x) * 4]? = some 128 := by
        unfold hystStep
        split
        · split
          · rw [writeRGB_getElem?_ne _ _ _ _ _ _ (by omega)]; exact h128
          · rw [writeRGB_getElem?_ne _ _ _ _ _ _ (by omega)]; exact h128
        · exact h128
      have hstrong' : ∃ idx ∈ neighbor8 w x y, (hystStep w arr p)[idx]? = some 255 := by
        obtain ⟨idx, hidx, hval⟩ := hstrong
        refine ⟨idx, hidx, ?_⟩
        have hmem8 := hidx
        simp only [neighbor8, List.mem_cons, List.not_mem_nil, or_false] at hmem8
        rcases hmem8 with rfl | rfl | rfl | rfl | rfl | rfl | rfl | rfl <;>
          exact hystStep_preserves_255 w arr p _ hval
      exact hyst_fold_promotes w x y hxw ps _
        (fun q hq => hb q (by simp [hq])) hmem' harr' hstrong'

/-- The R byte of any border pixel of a Sobel output is 0. -/
theorem sobelData_border_R (gray : List ℕ) (w h x y : ℕ) (hxw : x < w) (hyh : y < h)
    (hbord : x = 0 ∨ x = w - 1 ∨ y = 0 ∨ y = h - 1)
    (hlen : (y * w + x) * 4 + 3 < gray.length) :
    (sobelData gray w h)[(y * w + x) * 4]? = some 0 := by
  have hlenI : (sobelInterior gray w h).length = gray.length := by
    unfold sobelInterior
    rw [foldl_length_inv _ (sobelStep_length _ _), List.length_replicate]
  exact (sobelBorderStep_fold_written w h x y hbord (allPixels w h) _
    (mem_allPixels.mpr ⟨hxw, hyh⟩) (by rw [hlenI]; exact hlen)).1

theorem dtData_length (low high : ℕ) :
    ∀ l : List ℕ, (dtData low high l).length = l.length
  | m :: g :: b :: a :: rest => by
      simp only [dtData, List.length_cons, dtData_length low high rest]
  | [m, g, b] => rfl
  | [m, g] => rfl
  | [m] => rfl
  | [] => rfl

/-- The R byte of a double-threshold output is the classification of the
R byte of its input. -/
theorem dtData_R (low high : ℕ) :
    ∀ (l : List ℕ) (k : ℕ),
      (dtData low high l)[k * 4]? = (l[k * 4]?).map (dtByte low high)
  | m :: g :: b :: a :: rest, 0 => rfl
  | m :: g :: b :: a :: rest, k + 1 => by
      have ih := dtData_R low high rest k
      rw [show (k + 1) * 4 = k * 4 + 1 + 1 + 1 + 1 by ring]
      simp only [dtData, List.getElem?_cons_succ]
      exact ih
  | [m, g, b], 0 => rfl
  | [m, g, b], k + 1 => by
      rw [List.getElem?_eq_none (l := dtData low high [m, g, b])
          (by rw [dtData_length]; simp only [List.length_cons, List.length_nil]; omega),
        List.getElem?_eq_none (by simp only [List.length_cons, List.length_nil]; omega)]
      rfl
  | [m, g], 0 => rfl
  | [m, g], k + 1 => by
      rw [List.getElem?_eq_none (l := dtData low high [m, g])
          (by rw [dtData_length]; simp only [List.length_cons, List.length_nil]; omega),
        List.getElem?_eq_none (by simp only [List.length_cons, List.length_nil]; omega)]
      rfl
  | [m], 0 => rfl
  | [m], k + 1 => by
      rw [List.getElem?_eq_none (l := dtData low high [m])
          (by rw [dtData_length]; simp only [List.length_cons, List.length_nil]; omega),
        List.getElem?_eq_none (by simp only [List.length_cons, List.length_nil]; omega)]
      rfl
  | [], k => rfl

theorem dtByte_zero (low high : ℕ) : dtByte low high 0 = 0 := by
  simp [dtByte]

theorem gaussData_length (data : List ℕ) (w h : ℕ) :
    (gaussData data w h).length = data.length := by
  unfold gaussData
  exact foldl_length_inv _ (fun acc p => length_writeRGB _ _ _ _ _) _ _

/-- C5: in `applyCannyEdgeDetection`, (1) every pixel classified strong
(R byte 255) by the double-threshold stage still reads 255 after the
hysteresis pass, and (2) every pixel classified weak (128) having an
8-connected neighbour classified strong reads 255 after the pass.  (2)
holds for all pixels because a weak classification needs magnitude
`> lowThreshold ≥ 0` and border pixels have magnitude 0, so every weak
pixel lies in the interior region the pass scans. -/
theorem C5_canny_hysteresis (img : ImageData) (low high : ℕ) (hwf : img.Wf) :
    (∀ k, (cannyThresholded img low high)[k * 4]? = some 255 →
      (applyCannyEdgeDetection img low high).data[k * 4]? = some 255) ∧
    (∀ x y, x < img.width → y < img.height →
      (cannyThresholded img low high)[(y * img.width + x) * 4]? = some 128 →
      (∃ idx ∈ neighbor8 img.width x y,
        (cannyThresholded img low high)[idx]? = some 255) →
      (applyCannyEdgeDetection img low high).data[(y * img.width + x) * 4]?
        = some 255) := by
  constructor
  · intro k h255
    exact hysteresis_fold_preserves_255 img.width k
      (interiorPixels img.width img.height) (cannyThresholded img low high) h255
  · intro x y hx hy h128 hstrong
    by_cases hint : 1 ≤ x ∧ x < img.width - 1 ∧ 1 ≤ y ∧ y < img.height - 1
    · obtain ⟨h1, h2, h3, h4⟩ := hint
      exact hyst_fold_promotes img.width x y hx
        (interiorPixels img.width img.height) (cannyThresholded img low high)
        (fun p hp => by
          obtain ⟨a, b⟩ := p
          have := mem_interiorPixels.mp hp
          omega)
        (mem_interiorPixels.mpr ⟨h1, h2, h3, h4⟩) h128 hstrong
    · exfalso
      have hbord : x = 0 ∨ x = img.width - 1 ∨ y = 0 ∨ y = img.height - 1 := by omega
      have hlin : y * img.width + x < img.width * img.height := lin_lt hx hy
      have hsr : (applySobelEdgeDetection (applyGaussianBlur img)).data[(y * img.width + x) * 4]?
          = some 0 := by
        show (sobelData (grayData (gaussData img.data img.width img.height))
          img.width img.height)[(y * img.width + x) * 4]? = some 0
        apply sobelData_border_R _ _ _ _ _ hx hy hbord
        rw [grayData_length, gaussData_length, hwf]
        omega
      have hth := h128
      unfold cannyThresholded at hth
      rw [dtData_R, hsr] at hth
      rw [Option.map_some', dtByte_zero] at hth
      cases hth

theorem C5_witness :
    (applyCannyEdgeDetection
        ⟨5, 3,
          [0, 0, 0, 255, 0, 0, 0, 255, 50, 50, 50, 255, 70, 70, 70, 255, 70, 70, 70, 255,
           0, 0, 0, 255, 0, 0, 0, 255, 50, 50, 50, 255, 70, 70, 70, 255, 70, 70, 70, 255,
           0, 0, 0, 255, 0, 0, 0, 255, 50, 50, 50, 255, 70, 70, 70, 255, 70, 70, 70, 255]⟩
        70 220).data[(1 * 5 + 2) * 4]? = some 255 ∧
    (applyCannyEdgeDetection
        ⟨5, 3,
          [0, 0, 0, 255, 0, 0, 0, 255, 50, 50, 50, 255, 70, 70, 70, 255, 70, 70, 70, 255,
           0, 0, 0, 255, 0, 0, 0, 255, 50, 50, 50, 255, 70, 70, 70, 255, 70, 70, 70, 255,
           0, 0, 0, 255, 0, 0, 0, 255, 50, 50, 50, 255, 70, 70, 70, 255, 70, 70, 70, 255]⟩
        70 220).data[(1 * 5 + 1) * 4]? = some 255 :=
  ⟨(C5_canny_hysteresis
      ⟨5, 3,
        [0, 0, 0, 255, 0, 0, 0, 255, 50, 50, 50, 255, 70, 70, 70, 255, 70, 70, 70, 255,
         0, 0, 0, 255, 0, 0, 0, 255, 50, 50, 50, 255, 70, 70, 70, 255, 70, 70, 70, 255,
         0, 0, 0, 255, 0, 0, 0, 255, 50, 50, 50, 255, 70, 70, 70, 255, 70, 70, 70, 255]⟩
      70 220 (by decide)).1 (1 * 5 + 2) (by decide),
   (C5_canny_hysteresis
      ⟨5, 3,
        [0, 0, 0, 255, 0, 0, 0, 255, 50, 50, 50, 255, 70, 70, 70, 255, 70, 70, 70, 255,
         0, 0, 0, 255, 0, 0, 0, 255, 50, 50, 50, 255, 70, 70, 70, 255, 70, 70, 70, 255,
         0, 0, 0, 255, 0, 0, 0, 255, 50, 50, 50, 255, 70, 70, 70, 255, 70, 70, 70, 255]⟩
      70 220 (by decide)).2 1 1 (by decide) (by decide) (by decide)
      ⟨(1 * 5 + 2) * 4, by decide, by decide⟩⟩

/-- C8: Sobel on a constant-colour image.  Every interior pixel has both
gradient sums zero, hence magnitude 0 in R,G,B, and the second pass forces
every border pixel to `(0,0,0,255)`; together the output buffer is the
all-`(0,0,0,255)` image of the same dimensions. -/
theorem C8_sobel_constant (img : ImageData) (r g b a : ℕ)
    (hconst : img.data = replicatePixel (img.width * img.height) r g b a) :
    (applySobelEdgeDetection img).data
      = replicatePixel (img.width * img.height) 0 0 0 255 := by
  show sobelData (grayData img.data) img.width img.height = _
  rw [hconst, grayData_replicatePixel]
  exact sobelData_const img.width img.height _ _ _ rfl

theorem C8_witness :
    (applySobelEdgeDetection ⟨3, 3, replicatePixel 9 10 20 30 255⟩).data
      = replicatePixel 9 0 0 0 255 :=
  C8_sobel_constant ⟨3, 3, replicatePixel 9 10 20 30 255⟩ 10 20 30 255 rfl

/-! ## Lemmas on the basic transforms -/

theorem lumin_diag (v : ℕ) : lumin v v v = (v : ℚ) := by
  unfold lumin; ring

theorem grayData_idem : ∀ l : List ℕ, grayData (grayData l) = grayData l
  | r :: g :: b :: a :: rest => by
      have ih := grayData_idem rest
      simp only [grayData, lumin_diag,
        clampRoundHE_coe_nat _ (clampRoundHE_le_255 _), ih]
  | [r, g, b] => by
      simp only [grayData, lumin_diag, clampRoundHE_coe_nat _ (clampRoundHE_le_255 _)]
  | [_, _] => rfl
  | [_] => rfl
  | [] => rfl

theorem contrastData_alpha (f : ℚ) :
    ∀ (l : List ℕ) (k : ℕ), (contrastData f l)[4 * k + 3]? = l[4 * k + 3]?
  | r :: g :: b :: a :: rest, 0 => by simp [contrastData]
  | r :: g :: b :: a :: rest, (k + 1) => by
      have ih := contrastData_alpha f rest k
      have h4 : 4 * (k + 1) + 3 = 4 * k + 3 + 1 + 1 + 1 + 1 := by ring
      simp only [contrastData, h4, List.getElem?_cons_succ]
      exact ih
  | [r, g, b], k => by
      rw [List.getElem?_eq_none (l := contrastData f [r, g, b])
          (by rw [contrastData_length]; simp only [List.length_cons, List.length_nil]; omega),
        List.getElem?_eq_none (by simp only [List.length_cons, List.length_nil]; omega)]
  | [r, g], k => by
      rw [List.getElem?_eq_none (l := contrastData f [r, g])
          (by rw [contrastData_length]; simp only [List.length_cons, List.length_nil]; omega),
        List.getElem?_eq_none (by simp only [List.length_cons, List.length_nil]; omega)]
  | [r], k => by
      rw [List.getElem?_eq_none (l := contrastData f [r])
          (by rw [contrastData_length]; simp only [List.length_cons, List.length_nil]; omega),
        List.getElem?_eq_none (by simp only [List.length_cons, List.length_nil]; omega)]
  | [], k => rfl

theorem brightnessData_alpha (f : ℚ) :
    ∀ (l : List ℕ) (k : ℕ), (brightnessData f l)[4 * k + 3]? = l[4 * k + 3]?
  | r :: g :: b :: a :: rest, 0 => by simp [brightnessData]
  | r :: g :: b :: a :: rest, (k + 1) => by
      have ih := brightnessData_alpha f rest k
      have h4 : 4 * (k + 1) + 3 = 4 * k + 3 + 1 + 1 + 1 + 1 := by ring
      simp only [brightnessData, h4, List.getElem?_cons_succ]
      exact ih
  | [r, g, b], k => by
      rw [List.getElem?_eq_none (l := brightnessData f [r, g, b])
          (by rw [brightnessData_length]; simp only [List.length_cons, List.length_nil]; omega),
        List.getElem?_eq_none (by simp only [List.length_cons, List.length_nil]; omega)]
  | [r, g], k => by
      rw [List.getElem?_eq_none (l := brightnessData f [r, g])
          (by rw [brightnessData_length]; simp only [List.length_cons, List.length_nil]; omega),
        List.getElem?_eq_none (by simp only [List.length_cons, List.length_nil]; omega)]
  | [r], k => by
      rw [List.getElem?_eq_none (l := brightnessData f [r])
          (by rw [brightnessData_length]; simp only [List.length_cons, List.length_nil]; omega),
        List.getElem?_eq_none (by simp only [List.length_cons, List.length_nil]; omega)]
  | [], k => rfl

theorem grayData_alpha :
    ∀ (l : List ℕ) (k : ℕ), (grayData l)[4 * k + 3]? = l[4 * k + 3]?
  | r :: g :: b :: a :: rest, 0 => by simp [grayData]
  | r :: g :: b :: a :: rest, (k + 1) => by
      have ih := grayData_alpha rest k
      have h4 : 4 * (k + 1) + 3 = 4 * k + 3 + 1 + 1 + 1 + 1 := by ring
      simp only [grayData, h4, List.getElem?_cons_succ]
      exact ih
  | [r, g, b], k => by
      rw [List.getElem?_eq_none (l := grayData [r, g, b])
          (by rw [grayData_length]; simp only [List.length_cons, List.length_nil]; omega),
        List.getElem?_eq_none (by simp only [List.length_cons, List.length_nil]; omega)]
  | [r, g], k => by
      rw [List.getElem?_eq_none (l := grayData [r, g])
          (by rw [grayData_length]; simp only [List.length_cons, List.length_nil]; omega),
        List.getElem?_eq_none (by simp only [List.length_cons, List.length_nil]; omega)]
  | [r], k => by
      rw [List.getElem?_eq_none (l := grayData [r])
          (by rw [grayData_length]; simp only [List.length_cons, List.length_nil]; omega),
        List.getElem?_eq_none (by simp only [List.length_cons, List.length_nil]; omega)]
  | [], k => rfl

theorem threshData_alpha (t : ℚ) :
    ∀ (l : List ℕ) (k : ℕ), (threshData t l)[4 * k + 3]? = l[4 * k + 3]?
  | r :: g :: b :: a :: rest, 0 => by simp [threshData]
  | r :: g :: b :: a :: rest, (k + 1) => by
      have ih := threshData_alpha t rest k
      have h4 : 4 * (k + 1) + 3 = 4 * k + 3 + 1 + 1 + 1 + 1 := by ring
      simp only [threshData, h4, List.getElem?_cons_succ]
      exact ih
  | [r, g, b], k => by
      rw [List.getElem?_eq_none (l := threshData t [r, g, b])
          (by rw [threshData_length]; simp only [List.length_cons, List.length_nil]; omega),
        List.getElem?_eq_none (by simp only [List.length_cons, List.length_nil]; omega)]
  | [r, g], k => by
      rw [List.getElem?_eq_none (l := threshData t [r, g])
          (by rw [threshData_length]; simp only [List.length_cons, List.length_nil]; omega),
        List.getElem?_eq_none (by simp only [List.length_cons, List.length_nil]; omega)]
  | [r], k => by
      rw [List.getElem?_eq_none (l := threshData t [r])
          (by rw [threshData_length]; simp only [List.length_cons, List.length_nil]; omega),
        List.getElem?_eq_none (by simp only [List.length_cons, List.length_nil]; omega)]
  | [], k => rfl

theorem threshData_val (t : ℚ) :
    ∀ (l : List ℕ) (i : ℕ), i % 4 ≠ 3 →
      (threshData t l).getD i 0 = 0 ∨ (threshData t l).getD i 0 = 255
  | v :: g :: b :: a :: rest, 0, _ => by
      simp only [threshData, List.getD_cons_zero]; split <;> simp
  | v :: g :: b :: a :: rest, 1, _ => by
      simp only [threshData, List.getD_cons_succ, List.getD_cons_zero]; split <;> simp
  | v :: g :: b :: a :: rest, 2, _ => by
      simp only [threshData, List.getD_cons_succ, List.getD_cons_zero]; split <;> simp
  | v :: g :: b :: a :: rest, 3, h => absurd (by decide) h
  | v :: g :: b :: a :: rest, (i + 4), h => by
      have ih := threshData_val t rest i (by omega)
      have h4 : i + 4 = i + 1 + 1 + 1 + 1 := by ring
      simp only [threshData, h4, List.getD_cons_succ]
      exact ih
  | [v, g, b], 0, _ => by
      simp only [threshData, List.getD_cons_zero]; split <;> simp
  | [v, g, b], 1, _ => by
      simp only [threshData, List.getD_cons_succ, List.getD_cons_zero]; split <;> simp
  | [v, g, b], 2, _ => by
      simp only [threshData, List.getD_cons_succ, List.getD_cons_zero]; split <;> simp
  | [v, g, b], (i + 3), _ => by
      have h4 : i + 3 = i + 1 + 1 + 1 := by ring
      simp only [threshData, h4, List.getD_cons_succ]
      left
      cases i <;> rfl
  | [v, g], 0, _ => by
      simp only [threshData, List.getD_cons_zero]; split <;> simp
  | [v, g], 1, _ => by
      simp only [threshData, List.getD_cons_succ, List.getD_cons_zero]; split <;> simp
  | [v, g], (i + 2), _ => by
      have h4 : i + 2 = i + 1 + 1 := by ring
      simp only [threshData, h4, List.getD_cons_succ]
      left
      cases i <;> rfl
  | [v], 0, _ => by
      simp only [threshData, List.getD_cons_zero]; split <;> simp
  | [v], (i + 1), _ => by
      simp only [threshData, List.getD_cons_succ]
      left
      cases i <;> rfl
  | [], i, _ => by left; cases i <;> rfl

theorem sharpenData_alpha (data : List ℕ) (w : ℕ) (f : ℚ) (k : ℕ) :
    ∀ (ps : List (ℕ × ℕ)) (acc : List ℕ),
      (ps.foldl
        (fun acc p =>
          ((acc.set ((p.2 * w + p.1) * 4) (sharpenVal data w f p.1 p.2 0)).set
              ((p.2 * w + p.1) * 4 + 1) (sharpenVal data w f p.1 p.2 1)).set
            ((p.2 * w + p.1) * 4 + 2) (sharpenVal data w f p.1 p.2 2))
        acc)[4 * k + 3]?
      = acc[4 * k + 3]?
  | [], acc => rfl
  | p :: ps, acc => by
      rw [List.foldl_cons, sharpenData_alpha data w f k ps]
      rw [List.getElem?_set_ne (by omega), List.getElem?_set_ne (by omega),
        List.getElem?_set_ne (by omega)]

/-! ## Length preservation and the constructor step -/

theorem mkImageData_of_bad_length {data : List ℕ} {w h : ℕ}
    (hlen : data.length ≠ 4 * (w * h)) :
    mkImageData data w h = Except.error (constructorError data.length) := by
  unfold mkImageData constructorError
  by_cases hc : data.length = 0 ∨ data.length % 4 ≠ 0
  · rw [if_pos hc, if_pos hc]
  · rw [if_neg hc, if_neg hc, if_neg hlen]

/-! ## Claim theorems: the basic transforms -/

/-- C1: claimed, with the source's own doc comment ("100 is unchanged"),
that `applyContrast(_, 100)` is the identity on a 2×2 buffer of
`(100,100,100,255)` pixels because the factor is exactly 1 at
`contrast = 100`.  The code computes factor `18389/8109 ≈ 2.27` there and
maps every such pixel to `(65,65,65,255)`: the code contradicts its own
documentation. -/
theorem C1_contrast100_not_identity :
    contrastFactor 100 = 18389 / 8109 ∧
    applyContrast ⟨2, 2, replicatePixel 4 100 100 100 255⟩ 100
        = ⟨2, 2, replicatePixel 4 65 65 65 255⟩ ∧
    applyContrast ⟨2, 2, replicatePixel 4 100 100 100 255⟩ 100
        ≠ ⟨2, 2, replicatePixel 4 100 100 100 255⟩ := by
  refine ⟨by decide, by decide, by decide⟩

/-- C6: `applyGrayscale` is idempotent on every input buffer. -/
theorem C6_grayscale_idempotent (img : ImageData) :
    applyGrayscale (applyGrayscale img) = applyGrayscale img := by
  unfold applyGrayscale
  simp only [grayData_idem]

/-- C7: every non-alpha byte of an `applyThreshold` output is 0 or 255,
and every alpha byte equals the input's alpha byte. -/
theorem C7_threshold_binary_and_alpha (img : ImageData) (t : ℚ) :
    (∀ i, i % 4 ≠ 3 →
      (applyThreshold img t).data.getD i 0 = 0 ∨
      (applyThreshold img t).data.getD i 0 = 255) ∧
    (∀ k, (applyThreshold img t).data[4 * k + 3]? = img.data[4 * k + 3]?) := by
  constructor
  · intro i hi
    exact threshData_val t (grayData img.data) i hi
  · intro k
    show (threshData t (grayData img.data))[4 * k + 3]? = _
    rw [threshData_alpha, grayData_alpha]

theorem C7_witness :
    ((applyThreshold ⟨1, 1, [10, 200, 30, 7]⟩ 128).data.getD 0 0 = 0 ∨
      (applyThreshold ⟨1, 1, [10, 200, 30, 7]⟩ 128).data.getD 0 0 = 255) ∧
    (applyThreshold ⟨1, 1, [10, 200, 30, 7]⟩ 128).data[3]? =
      ([10, 200, 30, 7] : List ℕ)[3]? :=
  ⟨(C7_threshold_binary_and_alpha ⟨1, 1, [10, 200, 30, 7]⟩ 128).1 0 (by decide),
   (C7_threshold_binary_and_alpha ⟨1, 1, [10, 200, 30, 7]⟩ 128).2 0⟩

/-- C10: `applyContrast`, `applyBrightness` and `applySharpen` never write
an alpha byte: every index `≡ 3 (mod 4)` keeps its input value. -/
theorem C10_alpha_untouched (img : ImageData) (c b s : ℚ) (k : ℕ) :
    (applyContrast img c).data[4 * k + 3]? = img.data[4 * k + 3]? ∧
    (applyBrightness img b).data[4 * k + 3]? = img.data[4 * k + 3]? ∧
    (applySharpen img s).data[4 * k + 3]? = img.data[4 * k + 3]? := by
  refine ⟨contrastData_alpha _ _ _, brightnessData_alpha _ _ _, ?_⟩
  unfold applySharpen
  split
  · rfl
  · exact sharpenData_alpha img.data img.width (s / 10) k _ img.data

/-- C2: the specification says a buffer with `bytes.length ≠ width*height*4`
makes every operator fail with `InvalidBufferError`.  No code does:
`applyContrast` transforms the malformed bytes and fails only in the
platform `ImageData` constructor at the very end (index-size here,
invalid-state when the length is not a multiple of 4, as for the 1×1
three-byte buffer), while `applySharpen` at amount 0 returns the malformed
buffer unchanged with no failure at all. -/
theorem C2_counterexample :
    applyContrastE ⟨2, 2, [100, 100, 100, 255]⟩ 100 = Except.error JSError.indexSize ∧
    applyContrastE ⟨2, 2, [100, 100, 100, 255]⟩ 100 ≠ Except.error JSError.invalidBuffer ∧
    applyGrayscaleE ⟨1, 1, [1, 2, 3]⟩ = Except.error JSError.invalidState ∧
    applySharpenE ⟨2, 2, [100, 100, 100, 255]⟩ 0 = Except.ok ⟨2, 2, [100, 100, 100, 255]⟩ := by
  refine ⟨rfl, ?_, rfl, rfl⟩
  rw [show applyContrastE ⟨2, 2, [100, 100, 100, 255]⟩ 100
      = Except.error JSError.indexSize from rfl]
  simp

/-- C2 (amended): no code raises `InvalidBufferError` and no operator
checks `bytes.length` up front.  On a buffer with
`bytes.length ≠ 4*width*height`, each of the four chunk-loop operators —
contrast, brightness, grayscale, threshold — transforms the byte array it
was given and fails only in the trailing platform `ImageData` constructor:
with its invalid-state error when the byte length is zero or not a
multiple of 4, and with its index-size error otherwise.  `applySharpen` at
amount 0 does not even reach a constructor: it returns the malformed
buffer unchanged and raises nothing. -/
theorem C2_no_validation (img : ImageData) (c b t : ℚ) (h : ¬ img.Wf) :
    applyContrastE img c = Except.error (constructorError img.data.length) ∧
    applyBrightnessE img b = Except.error (constructorError img.data.length) ∧
    applyGrayscaleE img = Except.error (constructorError img.data.length) ∧
    applyThresholdE img t = Except.error (constructorError img.data.length) ∧
    applySharpenE img 0 = Except.ok img := by
  unfold ImageData.Wf at h
  refine ⟨?_, ?_, ?_, ?_, ?_⟩
  · unfold applyContrastE
    rw [mkImageData_of_bad_length (by rw [contrastData_length]; exact h), contrastData_length]
  · unfold applyBrightnessE
    rw [mkImageData_of_bad_length (by rw [brightnessData_length]; exact h),
      brightnessData_length]
  · unfold applyGrayscaleE
    rw [mkImageData_of_bad_length (by rw [grayData_length]; exact h), grayData_length]
  · unfold applyThresholdE
    rw [mkImageData_of_bad_length (by rw [threshData_length, grayData_length]; exact h),
      threshData_length, grayData_length]
  · unfold applySharpenE
    rw [if_pos rfl]

theorem C2_witness :
    applyContrastE ⟨2, 2, [100, 100, 100, 255]⟩ 7 = Except.error JSError.indexSize ∧
    applyBrightnessE ⟨2, 2, [100, 100, 100, 255]⟩ 7 = Except.error JSError.indexSize ∧
    applyGrayscaleE ⟨2, 2, [100, 100, 100, 255]⟩ = Except.error JSError.indexSize ∧
    applyThresholdE ⟨2, 2, [100, 100, 100, 255]⟩ 7 = Except.error JSError.indexSize ∧
    applySharpenE ⟨2, 2, [100, 100, 100, 255]⟩ 0 = Except.ok ⟨2, 2, [100, 100, 100, 255]⟩ :=
  C2_no_validation ⟨2, 2, [100, 100, 100, 255]⟩ 7 7 7 (by decide)

set_option maxRecDepth 100000 in
/-- C4: the claim asserts that for every buffer and parameters
`applySegmentation` completes with every pixel mapped to exactly one
post-merge representative and sizes summing to `width*height`.  On this
4×3 buffer with `tolerance = 5` (declared range 1–50), `minSize = 100`
(suggested range 10–500) and the default `rainbow` scheme, the growth
phase produces seven segments and the merge pass produces
`mergeMap = [1,1,5,5,6,6,5]`, whose entries 5 and 6 point at each other;
the flatten loop `while (mergeMap[target] !== target)` therefore never
terminates and `applySegmentation` never completes (modelled by `none`). -/
theorem C4_segmentation_diverges :
    segMergePass (segGrowth seg43data 4 3 5).map (segGrowth seg43data 4 3 5).sizes
        (segGrowth seg43data 4 3 5).colors 4 3 100 = [1, 1, 5, 5, 6, 6, 5] ∧
    applySegmentation (fun _ => 0) ⟨4, 3, seg43data⟩ 5 100 "rainbow" = none :=
  ⟨by decide, by decide⟩

/-- C3: dispatching a transform whose `type` is none of the eight
recognized kinds falls through to the `default` case: the input buffer is
returned unchanged and no error is raised, for every buffer, every
parameter record and every random sequence. -/
theorem C3_unknown_kind_passthrough (rnd : ℕ → ℚ) (img : ImageData) (t : Transform)
    (h : t.type ∉ (["contrast", "brightness", "sharpening", "threshold", "grayscale",
        "edges", "canny", "segmentation"] : List String)) :
    applyTransformation rnd img t = some img := by
  simp only [List.mem_cons, List.not_mem_nil, or_false, not_or] at h
  obtain ⟨h1, h2, h3, h4, h5, h6, h7, h8⟩ := h
  unfold applyTransformation
  rw [if_neg h1, if_neg h2, if_neg h3, if_neg h4, if_neg h5, if_neg h6, if_neg h7, if_neg h8]

theorem C3_witness :
    applyTransformation (fun _ => 0) ⟨1, 1, [1, 2, 3, 4]⟩
        ⟨"rotate", ⟨100, 100, 0, 128, 50, 150, 20, 100, "rainbow"⟩⟩
      = some ⟨1, 1, [1, 2, 3, 4]⟩ :=
  C3_unknown_kind_passthrough (fun _ => 0) ⟨1, 1, [1, 2, 3, 4]⟩
    ⟨"rotate", ⟨100, 100, 0, 128, 50, 150, 20, 100, "rainbow"⟩⟩ (by decide)

/-! ## HSV round trip: rounding-error toolkit -/

theorem jsRound_abs (q : ℚ) : |(jsRound q : ℚ) - q| ≤ 1/2 := by
  rw [abs_le]
  constructor
  · linarith [jsRound_gt q]
  · linarith [jsRound_le q]

theorem jsRound_nonneg {q : ℚ} (h : 0 ≤ q) : 0 ≤ jsRound q := by
  by_contra hneg
  push_neg at hneg
  have h1 : jsRound q ≤ -1 := by omega
  have h2 : (jsRound q : ℚ) ≤ -1 := by exact_mod_cast h1
  linarith [jsRound_gt q]

/-- Dividing a half-unit-accurate byte by 255 recovers `v` to within `1/500`. -/
theorem rt_v_err {v A : ℚ} (hA : |A - v*255| ≤ 1/2) : |A/255 - v| ≤ 1/500 := by
  rw [abs_le] at hA ⊢
  constructor <;> linarith [hA.1, hA.2]

/-- Saturation recovered from half-unit-accurate bytes `A ≈ 255v`, `C ≈ 255p`
with `p = v(1-s)` is within `1/100` of `s` when `s, v ∈ [1/2, 1]`. -/
theorem rt_s_err {p v s A C : ℚ} (hp : p = v * (1 - s)) (hs : 1/2 ≤ s) (hs1 : s ≤ 1)
    (hv : 1/2 ≤ v) (hv1 : v ≤ 1)
    (hA : |A - v*255| ≤ 1/2) (hC : |C - p*255| ≤ 1/2) :
    |(A - C)/A - s| ≤ 1/100 := by
  rw [abs_le] at hA hC
  have hA0 : (0:ℚ) < A := by nlinarith [hA.1]
  have key : (A - C)/A - s = (A - C - s*A)/A := by
    field_simp
    ring
  rw [key, abs_le]
  have hb1 : (A - (v*255)) * (1 - s) ≤ (1/2) * (1 - s) :=
    mul_le_mul_of_nonneg_right hA.2 (by linarith)
  have hb2 : (-(1/2)) * (1 - s) ≤ (A - (v*255)) * (1 - s) :=
    mul_le_mul_of_nonneg_right hA.1 (by linarith)
  constructor
  · rw [le_div_iff hA0]
    nlinarith [hC.2, hA.1]
  · rw [div_le_iff hA0]
    nlinarith [hC.1, hA.1]

/-- Core ratio-perturbation bound: replacing `T`, `P`, `V` by their roundings
perturbs `(T-P)/(V-P)` by at most `4/247` when `P ≤ T ≤ V` and the true
denominator is at least `251/4`. -/
theorem rt_ratio_err {P T V : ℚ} (hPT : P ≤ T) (hTV : T ≤ V) (hD : 251/4 ≤ V - P) :
    |((jsRound T : ℚ) - (jsRound P : ℚ)) / ((jsRound V : ℚ) - (jsRound P : ℚ))
      - (T - P) / (V - P)| ≤ 4/247 := by
  have hp := jsRound_abs P
  have ht := jsRound_abs T
  have hv := jsRound_abs V
  rw [abs_le] at hp ht hv
  have hD0 : (0:ℚ) < V - P := by linarith
  have hY : 247/4 ≤ (jsRound V : ℚ) - (jsRound P : ℚ) := by linarith [hv.1, hp.2]
  have hY0 : (0:ℚ) < (jsRound V : ℚ) - (jsRound P : ℚ) := by linarith
  rw [div_sub_div _ _ hY0.ne' hD0.ne', abs_div, abs_of_pos (mul_pos hY0 hD0)]
  have hnum : |((jsRound T : ℚ) - (jsRound P : ℚ)) * (V - P)
      - ((jsRound V : ℚ) - (jsRound P : ℚ)) * (T - P)| ≤ V - P := by
    have hexp : ((jsRound T : ℚ) - (jsRound P : ℚ)) * (V - P)
        - ((jsRound V : ℚ) - (jsRound P : ℚ)) * (T - P)
        = ((jsRound T : ℚ) - T) * (V - P) - (T - P) * ((jsRound V : ℚ) - V)
          - ((jsRound P : ℚ) - P) * ((V - P) - (T - P)) := by ring
    rw [hexp, abs_le]
    constructor
    · nlinarith [ht.1, hv.2, hp.2, hPT, hTV]
    · nlinarith [ht.2, hv.1, hp.1, hPT, hTV]
  calc |((jsRound T : ℚ) - (jsRound P : ℚ)) * (V - P)
        - ((jsRound V : ℚ) - (jsRound P : ℚ)) * (T - P)|
          / (((jsRound V : ℚ) - (jsRound P : ℚ)) * (V - P))
      ≤ (V - P) / (((jsRound V : ℚ) - (jsRound P : ℚ)) * (V - P)) :=
        div_le_div_of_le_of_nonneg hnum (mul_pos hY0 hD0).le
    _ = 1 / ((jsRound V : ℚ) - (jsRound P : ℚ)) := by
        rw [mul_comm, div_mul_eq_div_div, div_self hD0.ne']
    _ ≤ 4/247 := by
        rw [div_le_div_iff hY0 (by norm_num)]
        linarith

/-- Rounding `60x` to whole degrees lands within `3/2` of `60y` whenever
`x` approximates `y` to `4/247`. -/
theorem jsRound_sixty_err {x y : ℚ} (hxy : |x - y| ≤ 4/247) :
    |(jsRound (x * 60) : ℚ) - 60 * y| ≤ 3/2 := by
  have h1 := jsRound_abs (x * 60)
  have h2 : |x*60 - 60*y| ≤ 240/247 := by
    rw [show x*60 - 60*y = 60*(x - y) by ring, abs_mul, abs_of_pos (by norm_num : (0:ℚ) < 60)]
    linarith
  calc |(jsRound (x * 60) : ℚ) - 60 * y|
      ≤ |(jsRound (x * 60) : ℚ) - x*60| + |x*60 - 60*y| := abs_sub_le _ _ _
    _ ≤ 1/2 + 240/247 := add_le_add h1 h2
    _ ≤ 3/2 := by norm_num

theorem hueDist_le_abs (a b : ℚ) : hueDist a b ≤ |a - b| := min_le_left _ _

theorem hueDist_le_wrap (a b : ℚ) : hueDist a b ≤ 360 - |a - b| := min_le_right _ _

theorem div255_div (x y : ℚ) : x/255 / (y/255) = x/y := by
  rcases eq_or_ne y 0 with hy | hy
  · subst hy
    simp
  · field_simp

/-! ## HSV round trip: `rgbToHsv` on an ordered byte triple -/

/-- `rgbToHsv` when the red byte is largest (`G, B ≤ R`): the `max === r`
branch of the hue computation is taken. -/
theorem rgbToHsv_max_r {R G B : ℤ} (hG0 : 0 ≤ G) (hB0 : 0 ≤ B)
    (hGR : G ≤ R) (hBR : B ≤ R) (hd : min G B < R) :
    rgbToHsv (R:ℚ) (G:ℚ) (B:ℚ) =
      (((if jsRound (jsMod (((G:ℚ) - (B:ℚ)) / ((R:ℚ) - min (G:ℚ) (B:ℚ))) 6 * 60) < 0 then
          jsRound (jsMod (((G:ℚ) - (B:ℚ)) / ((R:ℚ) - min (G:ℚ) (B:ℚ))) 6 * 60) + 360
        else
          jsRound (jsMod (((G:ℚ) - (B:ℚ)) / ((R:ℚ) - min (G:ℚ) (B:ℚ))) 6 * 60) : ℤ) : ℚ),
       ((R:ℚ) - min (G:ℚ) (B:ℚ)) / (R:ℚ), (R:ℚ) / 255) := by
  have hGRq : (G:ℚ) ≤ (R:ℚ) := by exact_mod_cast hGR
  have hBRq : (B:ℚ) ≤ (R:ℚ) := by exact_mod_cast hBR
  have hdq : min (G:ℚ) (B:ℚ) < (R:ℚ) := by
    have h1 : ((min G B : ℤ) : ℚ) < (R:ℚ) := by exact_mod_cast hd
    push_cast at h1
    exact h1
  have hmin0q : (0:ℚ) ≤ min (G:ℚ) (B:ℚ) :=
    le_min (by exact_mod_cast hG0) (by exact_mod_cast hB0)
  have hR0 : (0:ℚ) < (R:ℚ) := lt_of_le_of_lt hmin0q hdq
  have hmx : max ((R:ℚ)/255) (max ((G:ℚ)/255) ((B:ℚ)/255)) = (R:ℚ)/255 :=
    max_eq_left (max_le (by gcongr) (by gcongr))
  have hmn : min ((R:ℚ)/255) (min ((G:ℚ)/255) ((B:ℚ)/255)) = min (G:ℚ) (B:ℚ) / 255 := by
    rw [min_div_div_right (by norm_num : (0:ℚ) ≤ 255)]
    exact min_eq_right (by gcongr)
  have hdelta : (R:ℚ)/255 - min (G:ℚ) (B:ℚ) / 255 = ((R:ℚ) - min (G:ℚ) (B:ℚ))/255 :=
    div_sub_div_same _ _ _
  have hdelta_ne : ((R:ℚ) - min (G:ℚ) (B:ℚ))/255 ≠ 0 :=
    ne_of_gt (div_pos (by linarith) (by norm_num))
  have hRd : (R:ℚ)/255 ≠ 0 := ne_of_gt (div_pos hR0 (by norm_num))
  simp only [rgbToHsv, hmx, hmn, hdelta, ite_true]
  rw [if_neg hdelta_ne, if_neg hRd, div_sub_div_same, div255_div, div255_div]

/-- `rgbToHsv` when the green byte is strictly largest: the `max === g`
branch of the hue computation is taken. -/
theorem rgbToHsv_max_g {R G B : ℤ} (hR0 : 0 ≤ R) (hB0 : 0 ≤ B)
    (hRG : R < G) (hBG : B ≤ G) :
    rgbToHsv (R:ℚ) (G:ℚ) (B:ℚ) =
      (((if jsRound ((((B:ℚ) - (R:ℚ)) / ((G:ℚ) - min (R:ℚ) (B:ℚ)) + 2) * 60) < 0 then
          jsRound ((((B:ℚ) - (R:ℚ)) / ((G:ℚ) - min (R:ℚ) (B:ℚ)) + 2) * 60) + 360
        else
          jsRound ((((B:ℚ) - (R:ℚ)) / ((G:ℚ) - min (R:ℚ) (B:ℚ)) + 2) * 60) : ℤ) : ℚ),
       ((G:ℚ) - min (R:ℚ) (B:ℚ)) / (G:ℚ), (G:ℚ) / 255) := by
  have hRGq : (R:ℚ) < (G:ℚ) := by exact_mod_cast hRG
  have hBGq : (B:ℚ) ≤ (G:ℚ) := by exact_mod_cast hBG
  have hmin0q : (0:ℚ) ≤ min (R:ℚ) (B:ℚ) :=
    le_min (by exact_mod_cast hR0) (by exact_mod_cast hB0)
  have hdq : min (R:ℚ) (B:ℚ) < (G:ℚ) := lt_of_le_of_lt (min_le_left _ _) hRGq
  have hG0q : (0:ℚ) < (G:ℚ) := lt_of_le_of_lt hmin0q hdq
  have hmx : max ((R:ℚ)/255) (max ((G:ℚ)/255) ((B:ℚ)/255)) = (G:ℚ)/255 := by
    rw [max_eq_left (by gcongr : (B:ℚ)/255 ≤ (G:ℚ)/255)]
    exact max_eq_right (by gcongr)
  have hmn : min ((R:ℚ)/255) (min ((G:ℚ)/255) ((B:ℚ)/255)) = min (R:ℚ) (B:ℚ) / 255 := by
    rw [min_eq_right (by gcongr : (B:ℚ)/255 ≤ (G:ℚ)/255),
      min_div_div_right (by norm_num : (0:ℚ) ≤ 255)]
  have hdelta : (G:ℚ)/255 - min (R:ℚ) (B:ℚ) / 255 = ((G:ℚ) - min (R:ℚ) (B:ℚ))/255 :=
    div_sub_div_same _ _ _
  have hdelta_ne : ((G:ℚ) - min (R:ℚ) (B:ℚ))/255 ≠ 0 :=
    ne_of_gt (div_pos (by linarith) (by norm_num))
  have hne1 : ¬((G:ℚ)/255 = (R:ℚ)/255) := by
    intro hEq
    have : (G:ℚ) = (R:ℚ) := by linarith
    exact absurd this (ne_of_gt hRGq)
  have hGd : (G:ℚ)/255 ≠ 0 := ne_of_gt (div_pos hG0q (by norm_num))
  simp only [rgbToHsv, hmx, hmn, hdelta, ite_true]
  rw [if_neg hdelta_ne, if_neg hne1, if_neg hGd, div_sub_div_same,
    div255_div, div255_div]

/-- `rgbToHsv` when the blue byte is strictly largest: the final branch of
the hue computation is taken. -/
theorem rgbToHsv_max_b {R G B : ℤ} (hR0 : 0 ≤ R) (hG0 : 0 ≤ G)
    (hRB : R < B) (hGB : G < B) :
    rgbToHsv (R:ℚ) (G:ℚ) (B:ℚ) =
      (((if jsRound ((((R:ℚ) - (G:ℚ)) / ((B:ℚ) - min (R:ℚ) (G:ℚ)) + 4) * 60) < 0 then
          jsRound ((((R:ℚ) - (G:ℚ)) / ((B:ℚ) - min (R:ℚ) (G:ℚ)) + 4) * 60) + 360
        else
          jsRound ((((R:ℚ) - (G:ℚ)) / ((B:ℚ) - min (R:ℚ) (G:ℚ)) + 4) * 60) : ℤ) : ℚ),
       ((B:ℚ) - min (R:ℚ) (G:ℚ)) / (B:ℚ), (B:ℚ) / 255) := by
  have hRBq : (R:ℚ) < (B:ℚ) := by exact_mod_cast hRB
  have hGBq : (G:ℚ) < (B:ℚ) := by exact_mod_cast hGB
  have hmin0q : (0:ℚ) ≤ min (R:ℚ) (G:ℚ) :=
    le_min (by exact_mod_cast hR0) (by exact_mod_cast hG0)
  have hdq : min (R:ℚ) (G:ℚ) < (B:ℚ) := lt_of_le_of_lt (min_le_left _ _) hRBq
  have hB0q : (0:ℚ) < (B:ℚ) := lt_of_le_of_lt hmin0q hdq
  have hmx : max ((R:ℚ)/255) (max ((G:ℚ)/255) ((B:ℚ)/255)) = (B:ℚ)/255 := by
    rw [max_eq_right (by gcongr : (G:ℚ)/255 ≤ (B:ℚ)/255)]
    exact max_eq_right (by gcongr)
  have hmn : min ((R:ℚ)/255) (min ((G:ℚ)/255) ((B:ℚ)/255)) = min (R:ℚ) (G:ℚ) / 255 := by
    rw [min_eq_left (by gcongr : (G:ℚ)/255 ≤ (B:ℚ)/255),
      min_div_div_right (by norm_num : (0:ℚ) ≤ 255)]
  have hdelta : (B:ℚ)/255 - min (R:ℚ) (G:ℚ) / 255 = ((B:ℚ) - min (R:ℚ) (G:ℚ))/255 :=
    div_sub_div_same _ _ _
  have hdelta_ne : ((B:ℚ) - min (R:ℚ) (G:ℚ))/255 ≠ 0 :=
    ne_of_gt (div_pos (by linarith) (by norm_num))
  have hne1 : ¬((B:ℚ)/255 = (R:ℚ)/255) := by
    intro hEq
    have : (B:ℚ) = (R:ℚ) := by linarith
    exact absurd this (ne_of_gt hRBq)
  have hne2 : ¬((B:ℚ)/255 = (G:ℚ)/255) := by
    intro hEq
    have : (B:ℚ) = (G:ℚ) := by linarith
    exact absurd this (ne_of_gt hGBq)
  have hBd : (B:ℚ)/255 ≠ 0 := ne_of_gt (div_pos hB0q (by norm_num))
  simp only [rgbToHsv, hmx, hmn, hdelta, ite_true]
  rw [if_neg hdelta_ne, if_neg hne1, if_neg hne2, if_neg hBd, div_sub_div_same,
    div255_div, div255_div]

/-! ## HSV round trip: `hsvToRgb` on each 60-degree sector -/

theorem hsvToRgb_s0 {h s v : ℚ} (hh0 : 0 ≤ h) (hh1 : h < 60) (hs : s ≠ 0) :
    hsvToRgb h s v =
      (jsRound (v * 255), jsRound (v * (1 - (1 - h/60) * s) * 255),
       jsRound (v * (1 - s) * 255)) := by
  have hnorm := hsv_norm_id hh0 (by linarith)
  have hfl : (h/60 : ℚ).floor = 0 := by
    rw [ratFloor_eq_floor, Int.floor_eq_zero_iff, Set.mem_Ico]
    exact ⟨by positivity, by rw [div_lt_one (by norm_num)]; exact hh1⟩
  simp only [hsvToRgb, hnorm, hfl, if_neg hs]
  norm_num

theorem hsvToRgb_s1 {h s v : ℚ} (hh0 : 60 ≤ h) (hh1 : h < 120) (hs : s ≠ 0) :
    hsvToRgb h s v =
      (jsRound (v * (1 - (h/60 - 1) * s) * 255), jsRound (v * 255),
       jsRound (v * (1 - s) * 255)) := by
  have hnorm := hsv_norm_id (by linarith) (by linarith)
  have hfl : (h/60 : ℚ).floor = 1 := by
    rw [ratFloor_eq_floor, Int.floor_eq_iff]
    constructor
    · push_cast
      rw [le_div_iff (by norm_num : (0:ℚ) < 60)]
      linarith
    · push_cast
      rw [div_lt_iff (by norm_num : (0:ℚ) < 60)]
      linarith
  simp only [hsvToRgb, hnorm, hfl, if_neg hs]
  norm_num

theorem hsvToRgb_s2 {h s v : ℚ} (hh0 : 120 ≤ h) (hh1 : h < 180) (hs : s ≠ 0) :
    hsvToRgb h s v =
      (jsRound (v * (1 - s) * 255), jsRound (v * 255),
       jsRound (v * (1 - (1 - (h/60 - 2)) * s) * 255)) := by
  have hnorm := hsv_norm_id (by linarith) (by linarith)
  have hfl : (h/60 : ℚ).floor = 2 := by
    rw [ratFloor_eq_floor, Int.floor_eq_iff]
    constructor
    · push_cast
      rw [le_div_iff (by norm_num : (0:ℚ) < 60)]
      linarith
    · push_cast
      rw [div_lt_iff (by norm_num : (0:ℚ) < 60)]
      linarith
  simp only [hsvToRgb, hnorm, hfl, if_neg hs]
  norm_num

theorem hsvToRgb_s3 {h s v : ℚ} (hh0 : 180 ≤ h) (hh1 : h < 240) (hs : s ≠ 0) :
    hsvToRgb h s v =
      (jsRound (v * (1 - s) * 255), jsRound (v * (1 - (h/60 - 3) * s) * 255),
       jsRound (v * 255)) := by
  have hnorm := hsv_norm_id (by linarith) (by linarith)
  have hfl : (h/60 : ℚ).floor = 3 := by
    rw [ratFloor_eq_floor, Int.floor_eq_iff]
    constructor
    · push_cast
      rw [le_div_iff (by norm_num : (0:ℚ) < 60)]
      linarith
    · push_cast
      rw [div_lt_iff (by norm_num : (0:ℚ) < 60)]
      linarith
  simp only [hsvToRgb, hnorm, hfl, if_neg hs]
  norm_num

theorem hsvToRgb_s4 {h s v : ℚ} (hh0 : 240 ≤ h) (hh1 : h < 300) (hs : s ≠ 0) :
    hsvToRgb h s v =
      (jsRound (v * (1 - (1 - (h/60 - 4)) * s) * 255), jsRound (v * (1 - s) * 255),
       jsRound (v * 255)) := by
  have hnorm := hsv_norm_id (by linarith) (by linarith)
  have hfl : (h/60 : ℚ).floor = 4 := by
    rw [ratFloor_eq_floor, Int.floor_eq_iff]
    constructor
    · push_cast
      rw [le_div_iff (by norm_num : (0:ℚ) < 60)]
      linarith
    · push_cast
      rw [div_lt_iff (by norm_num : (0:ℚ) < 60)]
      linarith
  simp only [hsvToRgb, hnorm, hfl, if_neg hs]
  norm_num

theorem hsvToRgb_s5 {h s v : ℚ} (hh0 : 300 ≤ h) (hh1 : h < 360) (hs : s ≠ 0) :
    hsvToRgb h s v =
      (jsRound (v * 255), jsRound (v * (1 - s) * 255),
       jsRound (v * (1 - (h/60 - 5) * s) * 255)) := by
  have hnorm := hsv_norm_id (by linarith) hh1
  have hfl : (h/60 : ℚ).floor = 5 := by
    rw [ratFloor_eq_floor, Int.floor_eq_iff]
    constructor
    · push_cast
      rw [le_div_iff (by norm_num : (0:ℚ) < 60)]
      linarith
    · push_cast
      rw [div_lt_iff (by norm_num : (0:ℚ) < 60)]
      linarith
  simp only [hsvToRgb, hnorm, hfl, if_neg hs]
  norm_num

/-! ## HSV round trip: per-sector error bounds -/

theorem roundTrip_s0 {h s v : ℚ} (hh0 : 0 ≤ h) (hh1 : h < 60)
    (hs : 1/2 ≤ s) (hs1 : s ≤ 1) (hv : 1/2 ≤ v) (hv1 : v ≤ 1) :
    |(roundTrip h s v).2.2 - v| ≤ 1/500 ∧ |(roundTrip h s v).2.1 - s| ≤ 1/100 ∧
      hueDist (roundTrip h s v).1 h ≤ 3/2 := by
  have hs0 : s ≠ 0 := ne_of_gt (by linarith)
  have hf0 : (0:ℚ) ≤ h/60 := by positivity
  have hf1 : h/60 < 1 := (div_lt_one (by norm_num)).mpr hh1
  have hpt : v * (1 - s) * 255 ≤ v * (1 - (1 - h/60) * s) * 255 := by
    nlinarith [mul_nonneg (mul_nonneg (by linarith : (0:ℚ) ≤ v) (by linarith : (0:ℚ) ≤ s)) hf0]
  have htv : v * (1 - (1 - h/60) * s) * 255 ≤ v * 255 := by
    nlinarith [mul_nonneg (mul_nonneg (by linarith : (0:ℚ) ≤ v) (by linarith : (0:ℚ) ≤ s))
      (by linarith : (0:ℚ) ≤ 1 - h/60)]
  have hp0 : (0:ℚ) ≤ v * (1 - s) * 255 := by
    nlinarith [mul_nonneg (by linarith : (0:ℚ) ≤ v) (by linarith : (0:ℚ) ≤ 1 - s)]
  have ht0 : (0:ℚ) ≤ v * (1 - (1 - h/60) * s) * 255 := le_trans hp0 hpt
  have hgap : 251/4 ≤ v * 255 - v * (1 - s) * 255 := by
    nlinarith [mul_nonneg (by linarith : (0:ℚ) ≤ v - 1/2) (by linarith : (0:ℚ) ≤ s - 1/2)]
  unfold roundTrip
  rw [hsvToRgb_s0 hh0 hh1 hs0]
  dsimp only
  have hG0 : 0 ≤ jsRound (v * (1 - (1 - h/60) * s) * 255) := jsRound_nonneg ht0
  have hB0 : 0 ≤ jsRound (v * (1 - s) * 255) := jsRound_nonneg hp0
  have hGR : jsRound (v * (1 - (1 - h/60) * s) * 255) ≤ jsRound (v * 255) := jsRound_mono htv
  have hBR : jsRound (v * (1 - s) * 255) ≤ jsRound (v * 255) :=
    jsRound_mono (le_trans hpt htv)
  have hRa := jsRound_abs (v * 255)
  have hPa := jsRound_abs (v * (1 - s) * 255)
  have hBRq : (jsRound (v * (1 - s) * 255) : ℚ) < (jsRound (v * 255) : ℚ) := by
    rw [abs_le] at hRa hPa
    linarith [hRa.1, hPa.2]
  have hBRlt : jsRound (v * (1 - s) * 255) < jsRound (v * 255) := by exact_mod_cast hBRq
  have hd : min (jsRound (v * (1 - (1 - h/60) * s) * 255)) (jsRound (v * (1 - s) * 255))
      < jsRound (v * 255) := lt_of_le_of_lt (min_le_right _ _) hBRlt
  rw [rgbToHsv_max_r hG0 hB0 hGR hBR hd]
  have hBGq : ((jsRound (v * (1 - s) * 255) : ℤ) : ℚ)
      ≤ ((jsRound (v * (1 - (1 - h/60) * s) * 255) : ℤ) : ℚ) := by
    exact_mod_cast jsRound_mono hpt
  rw [min_eq_right hBGq]
  dsimp only
  refine ⟨rt_v_err (jsRound_abs (v * 255)), ?_, ?_⟩
  · exact rt_s_err rfl hs hs1 hv hv1 (jsRound_abs (v * 255)) (jsRound_abs (v * (1 - s) * 255))
  · have hden : (0:ℚ) < (jsRound (v * 255) : ℚ) - (jsRound (v * (1 - s) * 255) : ℚ) := by
      linarith
    have hGRq : ((jsRound (v * (1 - (1 - h/60) * s) * 255) : ℤ) : ℚ)
        ≤ ((jsRound (v * 255) : ℤ) : ℚ) := by exact_mod_cast hGR
    have hx0 : 0 ≤ ((jsRound (v * (1 - (1 - h/60) * s) * 255) : ℚ)
        - (jsRound (v * (1 - s) * 255) : ℚ))
        / ((jsRound (v * 255) : ℚ) - (jsRound (v * (1 - s) * 255) : ℚ)) :=
      div_nonneg (by linarith) hden.le
    have hx1 : ((jsRound (v * (1 - (1 - h/60) * s) * 255) : ℚ)
        - (jsRound (v * (1 - s) * 255) : ℚ))
        / ((jsRound (v * 255) : ℚ) - (jsRound (v * (1 - s) * 255) : ℚ)) ≤ 1 := by
      rw [div_le_one hden]
      linarith
    rw [jsMod_eq_self (by norm_num : (0:ℚ) < 6) (by linarith) (by linarith)]
    have hratio : |((jsRound (v * (1 - (1 - h/60) * s) * 255) : ℚ)
        - (jsRound (v * (1 - s) * 255) : ℚ))
        / ((jsRound (v * 255) : ℚ) - (jsRound (v * (1 - s) * 255) : ℚ)) - h/60| ≤ 4/247 := by
      have hkey := rt_ratio_err hpt htv hgap
      have hTP : v * (1 - (1 - h/60) * s) * 255 - v * (1 - s) * 255
          = (v * 255 - v * (1 - s) * 255) * (h/60) := by ring
      have hVP0 : v * 255 - v * (1 - s) * 255 ≠ 0 := by linarith
      rw [hTP, mul_div_cancel_left₀ _ hVP0] at hkey
      exact hkey
    have hround := jsRound_sixty_err hratio
    rw [show (60:ℚ) * (h/60) = h by ring] at hround
    have hnn : 0 ≤ jsRound (((jsRound (v * (1 - (1 - h/60) * s) * 255) : ℚ)
        - (jsRound (v * (1 - s) * 255) : ℚ))
        / ((jsRound (v * 255) : ℚ) - (jsRound (v * (1 - s) * 255) : ℚ)) * 60) :=
      jsRound_nonneg (mul_nonneg hx0 (by norm_num))
    rw [if_neg (not_lt.mpr hnn)]
    exact le_trans (hueDist_le_abs _ _) hround

theorem roundTrip_s1 {h s v : ℚ} (hh0 : 60 ≤ h) (hh1 : h < 120)
    (hs : 1/2 ≤ s) (hs1 : s ≤ 1) (hv : 1/2 ≤ v) (hv1 : v ≤ 1) :
    |(roundTrip h s v).2.2 - v| ≤ 1/500 ∧ |(roundTrip h s v).2.1 - s| ≤ 1/100 ∧
      hueDist (roundTrip h s v).1 h ≤ 3/2 := by
  have hs0 : s ≠ 0 := ne_of_gt (by linarith)
  have hf0 : (0:ℚ) ≤ h/60 - 1 := by
    have : (1:ℚ) ≤ h/60 := by rw [le_div_iff (by norm_num)]; linarith
    linarith
  have hf1 : h/60 - 1 < 1 := by
    have : h/60 < 2 := by rw [div_lt_iff (by norm_num)]; linarith
    linarith
  have hvs : (1:ℚ)/4 ≤ v * s := by
    nlinarith [mul_nonneg (by linarith : (0:ℚ) ≤ v - 1/2) (by linarith : (0:ℚ) ≤ s - 1/2)]
  have hpq : v * (1 - s) * 255 ≤ v * (1 - (h/60 - 1) * s) * 255 := by
    nlinarith [mul_nonneg (mul_nonneg (by linarith : (0:ℚ) ≤ v) (by linarith : (0:ℚ) ≤ s))
      (by linarith : (0:ℚ) ≤ 1 - (h/60 - 1))]
  have hqv : v * (1 - (h/60 - 1) * s) * 255 ≤ v * 255 := by
    nlinarith [mul_nonneg (mul_nonneg (by linarith : (0:ℚ) ≤ v) (by linarith : (0:ℚ) ≤ s)) hf0]
  have hp0 : (0:ℚ) ≤ v * (1 - s) * 255 := by
    nlinarith [mul_nonneg (by linarith : (0:ℚ) ≤ v) (by linarith : (0:ℚ) ≤ 1 - s)]
  have hq0 : (0:ℚ) ≤ v * (1 - (h/60 - 1) * s) * 255 := le_trans hp0 hpq
  have hgap : 251/4 ≤ v * 255 - v * (1 - s) * 255 := by linarith [hvs]
  have hRa := jsRound_abs (v * 255)
  have hPa := jsRound_abs (v * (1 - s) * 255)
  have hQa := jsRound_abs (v * (1 - (h/60 - 1) * s) * 255)
  unfold roundTrip
  rw [hsvToRgb_s1 hh0 hh1 hs0]
  dsimp only
  have hBRq : (jsRound (v * (1 - s) * 255) : ℚ) < (jsRound (v * 255) : ℚ) := by
    rw [abs_le] at hRa hPa
    linarith [hRa.1, hPa.2]
  by_cases htie : jsRound (v * (1 - (h/60 - 1) * s) * 255) = jsRound (v * 255)
  · -- rounded red equals rounded green: the `max === r` branch fires
    have hcast : ((jsRound (v * (1 - (h/60 - 1) * s) * 255) : ℤ) : ℚ)
        = ((jsRound (v * 255) : ℤ) : ℚ) := by exact_mod_cast htie
    have hG0 : 0 ≤ jsRound (v * 255) := jsRound_nonneg (by linarith)
    have hB0 : 0 ≤ jsRound (v * (1 - s) * 255) := jsRound_nonneg hp0
    have hGR : jsRound (v * 255) ≤ jsRound (v * (1 - (h/60 - 1) * s) * 255) := le_of_eq htie.symm
    have hBR : jsRound (v * (1 - s) * 255) ≤ jsRound (v * (1 - (h/60 - 1) * s) * 255) :=
      jsRound_mono hpq
    have hd : min (jsRound (v * 255)) (jsRound (v * (1 - s) * 255))
        < jsRound (v * (1 - (h/60 - 1) * s) * 255) := by
      refine lt_of_le_of_lt (min_le_right _ _) ?_
      rw [htie]
      exact_mod_cast hBRq
    rw [rgbToHsv_max_r hG0 hB0 hGR hBR hd]
    have hBGq : ((jsRound (v * (1 - s) * 255) : ℤ) : ℚ) ≤ ((jsRound (v * 255) : ℤ) : ℚ) :=
      hBRq.le
    rw [min_eq_right hBGq]
    dsimp only
    have hAa : |((jsRound (v * (1 - (h/60 - 1) * s) * 255) : ℤ) : ℚ) - v * 255| ≤ 1/2 := by
      rw [hcast]
      exact hRa
    have hden : (0:ℚ) < (jsRound (v * (1 - (h/60 - 1) * s) * 255) : ℚ)
        - (jsRound (v * (1 - s) * 255) : ℚ) := by
      rw [hcast]
      linarith
    refine ⟨rt_v_err hAa, rt_s_err rfl hs hs1 hv hv1 hAa (jsRound_abs (v * (1 - s) * 255)), ?_⟩
    have hx : ((jsRound (v * 255) : ℚ) - (jsRound (v * (1 - s) * 255) : ℚ))
        / ((jsRound (v * (1 - (h/60 - 1) * s) * 255) : ℚ)
            - (jsRound (v * (1 - s) * 255) : ℚ)) = 1 := by
      rw [hcast]
      exact div_self (by linarith)
    rw [hx, jsMod_eq_self (by norm_num : (0:ℚ) < 6) (by norm_num) (by norm_num),
      show (1:ℚ) * 60 = 60 by norm_num,
      show jsRound (60:ℚ) = 60 from by decide, if_neg (by norm_num : ¬((60:ℤ) < 0)),
      show ((60:ℤ) : ℚ) = 60 from by norm_num]
    refine le_trans (hueDist_le_abs _ _) ?_
    rw [abs_of_nonpos (by linarith : (60:ℚ) - h ≤ 0)]
    have hsmall : v * 255 - v * (1 - (h/60 - 1) * s) * 255 ≤ 1 := by
      have hQ := abs_le.mp hQa
      have hR := abs_le.mp hRa
      linarith [hQ.1, hR.2, hcast.le, hcast.ge]
    have hid : v * 255 - v * (1 - (h/60 - 1) * s) * 255 = 255 * (v * s * (h/60 - 1)) := by
      ring
    rw [hid] at hsmall
    nlinarith [mul_nonneg hf0 (by linarith : (0:ℚ) ≤ v * s - 1/4)]
  · -- rounded green is strictly largest: the `max === g` branch fires
    have hQRlt : jsRound (v * (1 - (h/60 - 1) * s) * 255) < jsRound (v * 255) :=
      lt_of_le_of_ne (jsRound_mono hqv) htie
    have hR0 : 0 ≤ jsRound (v * (1 - (h/60 - 1) * s) * 255) := jsRound_nonneg hq0
    have hB0 : 0 ≤ jsRound (v * (1 - s) * 255) := jsRound_nonneg hp0
    have hBG : jsRound (v * (1 - s) * 255) ≤ jsRound (v * 255) :=
      jsRound_mono (le_trans hpq hqv)
    rw [rgbToHsv_max_g hR0 hB0 hQRlt hBG]
    have hPQq : ((jsRound (v * (1 - s) * 255) : ℤ) : ℚ)
        ≤ ((jsRound (v * (1 - (h/60 - 1) * s) * 255) : ℤ) : ℚ) := by
      exact_mod_cast jsRound_mono hpq
    rw [min_eq_right hPQq]
    dsimp only
    refine ⟨rt_v_err (jsRound_abs (v * 255)),
      rt_s_err rfl hs hs1 hv hv1 (jsRound_abs (v * 255)) (jsRound_abs (v * (1 - s) * 255)), ?_⟩
    have hden : (0:ℚ) < (jsRound (v * 255) : ℚ) - (jsRound (v * (1 - s) * 255) : ℚ) := by
      linarith
    have hkey := rt_ratio_err hpq hqv hgap
    have hTP : v * (1 - (h/60 - 1) * s) * 255 - v * (1 - s) * 255
        = (v * 255 - v * (1 - s) * 255) * (2 - h/60) := by ring
    have hVP0 : v * 255 - v * (1 - s) * 255 ≠ 0 := by linarith
    rw [hTP, mul_div_cancel_left₀ _ hVP0] at hkey
    have hratio : |(((jsRound (v * (1 - s) * 255) : ℚ)
        - (jsRound (v * (1 - (h/60 - 1) * s) * 255) : ℚ))
        / ((jsRound (v * 255) : ℚ) - (jsRound (v * (1 - s) * 255) : ℚ)) + 2) - h/60|
        ≤ 4/247 := by
      rw [show (((jsRound (v * (1 - s) * 255) : ℚ)
          - (jsRound (v * (1 - (h/60 - 1) * s) * 255) : ℚ))
          / ((jsRound (v * 255) : ℚ) - (jsRound (v * (1 - s) * 255) : ℚ)) + 2) - h/60
          = -((((jsRound (v * (1 - (h/60 - 1) * s) * 255) : ℚ)
              - (jsRound (v * (1 - s) * 255) : ℚ))
              / ((jsRound (v * 255) : ℚ) - (jsRound (v * (1 - s) * 255) : ℚ)))
            - (2 - h/60)) from by ring, abs_neg]
      exact hkey
    have hround := jsRound_sixty_err hratio
    rw [show (60:ℚ) * (h/60) = h by ring] at hround
    have hQle : ((jsRound (v * (1 - (h/60 - 1) * s) * 255) : ℤ) : ℚ)
        ≤ ((jsRound (v * 255) : ℤ) : ℚ) := by exact_mod_cast hQRlt.le
    have hxlo : (-1:ℚ) ≤ ((jsRound (v * (1 - s) * 255) : ℚ)
        - (jsRound (v * (1 - (h/60 - 1) * s) * 255) : ℚ))
        / ((jsRound (v * 255) : ℚ) - (jsRound (v * (1 - s) * 255) : ℚ)) := by
      rw [le_div_iff hden]
      linarith
    have hnn : 0 ≤ jsRound ((((jsRound (v * (1 - s) * 255) : ℚ)
        - (jsRound (v * (1 - (h/60 - 1) * s) * 255) : ℚ))
        / ((jsRound (v * 255) : ℚ) - (jsRound (v * (1 - s) * 255) : ℚ)) + 2) * 60) :=
      jsRound_nonneg (mul_nonneg (by linarith) (by norm_num))
    rw [if_neg (not_lt.mpr hnn)]
    exact le_trans (hueDist_le_abs _ _) hround

theorem roundTrip_s2 {h s v : ℚ} (hh0 : 120 ≤ h) (hh1 : h < 180)
    (hs : 1/2 ≤ s) (hs1 : s ≤ 1) (hv : 1/2 ≤ v) (hv1 : v ≤ 1) :
    |(roundTrip h s v).2.2 - v| ≤ 1/500 ∧ |(roundTrip h s v).2.1 - s| ≤ 1/100 ∧
      hueDist (roundTrip h s v).1 h ≤ 3/2 := by
  have hs0 : s ≠ 0 := ne_of_gt (by linarith)
  have hf0 : (0:ℚ) ≤ h/60 - 2 := by
    have : (2:ℚ) ≤ h/60 := by rw [le_div_iff (by norm_num)]; linarith
    linarith
  have hf1 : h/60 - 2 < 1 := by
    have : h/60 < 3 := by rw [div_lt_iff (by norm_num)]; linarith
    linarith
  have hvs : (1:ℚ)/4 ≤ v * s := by
    nlinarith [mul_nonneg (by linarith : (0:ℚ) ≤ v - 1/2) (by linarith : (0:ℚ) ≤ s - 1/2)]
  have hpt : v * (1 - s) * 255 ≤ v * (1 - (1 - (h/60 - 2)) * s) * 255 := by
    nlinarith [mul_nonneg (mul_nonneg (by linarith : (0:ℚ) ≤ v) (by linarith : (0:ℚ) ≤ s)) hf0]
  have htv : v * (1 - (1 - (h/60 - 2)) * s) * 255 ≤ v * 255 := by
    nlinarith [mul_nonneg (mul_nonneg (by linarith : (0:ℚ) ≤ v) (by linarith : (0:ℚ) ≤ s))
      (by linarith : (0:ℚ) ≤ 1 - (h/60 - 2))]
  have hp0 : (0:ℚ) ≤ v * (1 - s) * 255 := by
    nlinarith [mul_nonneg (by linarith : (0:ℚ) ≤ v) (by linarith : (0:ℚ) ≤ 1 - s)]
  have ht0 : (0:ℚ) ≤ v * (1 - (1 - (h/60 - 2)) * s) * 255 := le_trans hp0 hpt
  have hgap : 251/4 ≤ v * 255 - v * (1 - s) * 255 := by linarith [hvs]
  have hRa := jsRound_abs (v * 255)
  have hPa := jsRound_abs (v * (1 - s) * 255)
  unfold roundTrip
  rw [hsvToRgb_s2 hh0 hh1 hs0]
  dsimp only
  have hBRq : (jsRound (v * (1 - s) * 255) : ℚ) < (jsRound (v * 255) : ℚ) := by
    rw [abs_le] at hRa hPa
    linarith [hRa.1, hPa.2]
  have hPRlt : jsRound (v * (1 - s) * 255) < jsRound (v * 255) := by exact_mod_cast hBRq
  have hR0 : 0 ≤ jsRound (v * (1 - s) * 255) := jsRound_nonneg hp0
  have hB0 : 0 ≤ jsRound (v * (1 - (1 - (h/60 - 2)) * s) * 255) := jsRound_nonneg ht0
  have hBG : jsRound (v * (1 - (1 - (h/60 - 2)) * s) * 255) ≤ jsRound (v * 255) :=
    jsRound_mono htv
  rw [rgbToHsv_max_g hR0 hB0 hPRlt hBG]
  have hPTq : ((jsRound (v * (1 - s) * 255) : ℤ) : ℚ)
      ≤ ((jsRound (v * (1 - (1 - (h/60 - 2)) * s) * 255) : ℤ) : ℚ) := by
    exact_mod_cast jsRound_mono hpt
  rw [min_eq_left hPTq]
  dsimp only
  refine ⟨rt_v_err (jsRound_abs (v * 255)),
    rt_s_err rfl hs hs1 hv hv1 (jsRound_abs (v * 255)) (jsRound_abs (v * (1 - s) * 255)), ?_⟩
  have hden : (0:ℚ) < (jsRound (v * 255) : ℚ) - (jsRound (v * (1 - s) * 255) : ℚ) := by
    linarith
  have hkey := rt_ratio_err hpt htv hgap
  have hTP : v * (1 - (1 - (h/60 - 2)) * s) * 255 - v * (1 - s) * 255
      = (v * 255 - v * (1 - s) * 255) * (h/60 - 2) := by ring
  have hVP0 : v * 255 - v * (1 - s) * 255 ≠ 0 := by linarith
  rw [hTP, mul_div_cancel_left₀ _ hVP0] at hkey
  have hratio : |(((jsRound (v * (1 - (1 - (h/60 - 2)) * s) * 255) : ℚ)
      - (jsRound (v * (1 - s) * 255) : ℚ))
      / ((jsRound (v * 255) : ℚ) - (jsRound (v * (1 - s) * 255) : ℚ)) + 2) - h/60|
      ≤ 4/247 := by
    rw [show (((jsRound (v * (1 - (1 - (h/60 - 2)) * s) * 255) : ℚ)
        - (jsRound (v * (1 - s) * 255) : ℚ))
        / ((jsRound (v * 255) : ℚ) - (jsRound (v * (1 - s) * 255) : ℚ)) + 2) - h/60
        = (((jsRound (v * (1 - (1 - (h/60 - 2)) * s) * 255) : ℚ)
            - (jsRound (v * (1 - s) * 255) : ℚ))
            / ((jsRound (v * 255) : ℚ) - (jsRound (v * (1 - s) * 255) : ℚ)))
          - (h/60 - 2) from by ring]
    exact hkey
  have hround := jsRound_sixty_err hratio
  rw [show (60:ℚ) * (h/60) = h by ring] at hround
  have hx0 : (0:ℚ) ≤ ((jsRound (v * (1 - (1 - (h/60 - 2)) * s) * 255) : ℚ)
      - (jsRound (v * (1 - s) * 255) : ℚ))
      / ((jsRound (v * 255) : ℚ) - (jsRound (v * (1 - s) * 255) : ℚ)) :=
    div_nonneg (by linarith) hden.le
  have hnn : 0 ≤ jsRound ((((jsRound (v * (1 - (1 - (h/60 - 2)) * s) * 255) : ℚ)
      - (jsRound (v * (1 - s) * 255) : ℚ))
      / ((jsRound (v * 255) : ℚ) - (jsRound (v * (1 - s) * 255) : ℚ)) + 2) * 60) :=
    jsRound_nonneg (mul_nonneg (by linarith) (by norm_num))
  rw [if_neg (not_lt.mpr hnn)]
  exact le_trans (hueDist_le_abs _ _) hround

theorem roundTrip_s3 {h s v : ℚ} (hh0 : 180 ≤ h) (hh1 : h < 240)
    (hs : 1/2 ≤ s) (hs1 : s ≤ 1) (hv : 1/2 ≤ v) (hv1 : v ≤ 1) :
    |(roundTrip h s v).2.2 - v| ≤ 1/500 ∧ |(roundTrip h s v).2.1 - s| ≤ 1/100 ∧
      hueDist (roundTrip h s v).1 h ≤ 3/2 := by
  have hs0 : s ≠ 0 := ne_of_gt (by linarith)
  have hf0 : (0:ℚ) ≤ h/60 - 3 := by
    have : (3:ℚ) ≤ h/60 := by rw [le_div_iff (by norm_num)]; linarith
    linarith
  have hf1 : h/60 - 3 < 1 := by
    have : h/60 < 4 := by rw [div_lt_iff (by norm_num)]; linarith
    linarith
  have hvs : (1:ℚ)/4 ≤ v * s := by
    nlinarith [mul_nonneg (by linarith : (0:ℚ) ≤ v - 1/2) (by linarith : (0:ℚ) ≤ s - 1/2)]
  have hpq : v * (1 - s) * 255 ≤ v * (1 - (h/60 - 3) * s) * 255 := by
    nlinarith [mul_nonneg (mul_nonneg (by linarith : (0:ℚ) ≤ v) (by linarith : (0:ℚ) ≤ s))
      (by linarith : (0:ℚ) ≤ 1 - (h/60 - 3))]
  have hqv : v * (1 - (h/60 - 3) * s) * 255 ≤ v * 255 := by
    nlinarith [mul_nonneg (mul_nonneg (by linarith : (0:ℚ) ≤ v) (by linarith : (0:ℚ) ≤ s)) hf0]
  have hp0 : (0:ℚ) ≤ v * (1 - s) * 255 := by
    nlinarith [mul_nonneg (by linarith : (0:ℚ) ≤ v) (by linarith : (0:ℚ) ≤ 1 - s)]
  have hq0 : (0:ℚ) ≤ v * (1 - (h/60 - 3) * s) * 255 := le_trans hp0 hpq
  have hgap : 251/4 ≤ v * 255 - v * (1 - s) * 255 := by linarith [hvs]
  have hRa := jsRound_abs (v * 255)
  have hPa := jsRound_abs (v * (1 - s) * 255)
  have hQa := jsRound_abs (v * (1 - (h/60 - 3) * s) * 255)
  unfold roundTrip
  rw [hsvToRgb_s3 hh0 hh1 hs0]
  dsimp only
  have hBRq : (jsRound (v * (1 - s) * 255) : ℚ) < (jsRound (v * 255) : ℚ) := by
    rw [abs_le] at hRa hPa
    linarith [hRa.1, hPa.2]
  have hPRlt : jsRound (v * (1 - s) * 255) < jsRound (v * 255) := by exact_mod_cast hBRq
  by_cases htie : jsRound (v * (1 - (h/60 - 3) * s) * 255) = jsRound (v * 255)
  · -- rounded green equals rounded blue: the `max === g` branch fires
    have hcast : ((jsRound (v * (1 - (h/60 - 3) * s) * 255) : ℤ) : ℚ)
        = ((jsRound (v * 255) : ℤ) : ℚ) := by exact_mod_cast htie
    have hR0 : 0 ≤ jsRound (v * (1 - s) * 255) := jsRound_nonneg hp0
    have hB0 : 0 ≤ jsRound (v * 255) := jsRound_nonneg (by linarith)
    have hRG : jsRound (v * (1 - s) * 255) < jsRound (v * (1 - (h/60 - 3) * s) * 255) := by
      rw [htie]
      exact hPRlt
    have hBG : jsRound (v * 255) ≤ jsRound (v * (1 - (h/60 - 3) * s) * 255) :=
      le_of_eq htie.symm
    rw [rgbToHsv_max_g hR0 hB0 hRG hBG]
    rw [min_eq_left hBRq.le]
    dsimp only
    have hAa : |((jsRound (v * (1 - (h/60 - 3) * s) * 255) : ℤ) : ℚ) - v * 255| ≤ 1/2 := by
      rw [hcast]
      exact hRa
    have hden : (0:ℚ) < (jsRound (v * (1 - (h/60 - 3) * s) * 255) : ℚ)
        - (jsRound (v * (1 - s) * 255) : ℚ) := by
      rw [hcast]
      linarith
    refine ⟨rt_v_err hAa, rt_s_err rfl hs hs1 hv hv1 hAa (jsRound_abs (v * (1 - s) * 255)), ?_⟩
    have hx : ((jsRound (v * 255) : ℚ) - (jsRound (v * (1 - s) * 255) : ℚ))
        / ((jsRound (v * (1 - (h/60 - 3) * s) * 255) : ℚ)
            - (jsRound (v * (1 - s) * 255) : ℚ)) = 1 := by
      rw [hcast]
      exact div_self (by linarith)
    rw [hx, show ((1:ℚ) + 2) * 60 = 180 by norm_num,
      show jsRound (180:ℚ) = 180 from by decide, if_neg (by norm_num : ¬((180:ℤ) < 0)),
      show ((180:ℤ) : ℚ) = 180 from by norm_num]
    refine le_trans (hueDist_le_abs _ _) ?_
    rw [abs_of_nonpos (by linarith : (180:ℚ) - h ≤ 0)]
    have hsmall : v * 255 - v * (1 - (h/60 - 3) * s) * 255 ≤ 1 := by
      have hQ := abs_le.mp hQa
      have hR := abs_le.mp hRa
      linarith [hQ.1, hR.2, hcast.le, hcast.ge]
    have hid : v * 255 - v * (1 - (h/60 - 3) * s) * 255 = 255 * (v * s * (h/60 - 3)) := by
      ring
    rw [hid] at hsmall
    nlinarith [mul_nonneg hf0 (by linarith : (0:ℚ) ≤ v * s - 1/4)]
  · -- rounded blue is strictly largest: the final branch fires
    have hQRlt : jsRound (v * (1 - (h/60 - 3) * s) * 255) < jsRound (v * 255) :=
      lt_of_le_of_ne (jsRound_mono hqv) htie
    have hR0 : 0 ≤ jsRound (v * (1 - s) * 255) := jsRound_nonneg hp0
    have hG0 : 0 ≤ jsRound (v * (1 - (h/60 - 3) * s) * 255) := jsRound_nonneg hq0
    rw [rgbToHsv_max_b hR0 hG0 hPRlt hQRlt]
    have hPQq : ((jsRound (v * (1 - s) * 255) : ℤ) : ℚ)
        ≤ ((jsRound (v * (1 - (h/60 - 3) * s) * 255) : ℤ) : ℚ) := by
      exact_mod_cast jsRound_mono hpq
    rw [min_eq_left hPQq]
    dsimp only
    refine ⟨rt_v_err (jsRound_abs (v * 255)),
      rt_s_err rfl hs hs1 hv hv1 (jsRound_abs (v * 255)) (jsRound_abs (v * (1 - s) * 255)), ?_⟩
    have hden : (0:ℚ) < (jsRound (v * 255) : ℚ) - (jsRound (v * (1 - s) * 255) : ℚ) := by
      linarith
    have hkey := rt_ratio_err hpq hqv hgap
    have hTP : v * (1 - (h/60 - 3) * s) * 255 - v * (1 - s) * 255
        = (v * 255 - v * (1 - s) * 255) * (4 - h/60) := by ring
    have hVP0 : v * 255 - v * (1 - s) * 255 ≠ 0 := by linarith
    rw [hTP, mul_div_cancel_left₀ _ hVP0] at hkey
    have hratio : |(((jsRound (v * (1 - s) * 255) : ℚ)
        - (jsRound (v * (1 - (h/60 - 3) * s) * 255) : ℚ))
        / ((jsRound (v * 255) : ℚ) - (jsRound (v * (1 - s) * 255) : ℚ)) + 4) - h/60|
        ≤ 4/247 := by
      rw [show (((jsRound (v * (1 - s) * 255) : ℚ)
          - (jsRound (v * (1 - (h/60 - 3) * s) * 255) : ℚ))
          / ((jsRound (v * 255) : ℚ) - (jsRound (v * (1 - s) * 255) : ℚ)) + 4) - h/60
          = -((((jsRound (v * (1 - (h/60 - 3) * s) * 255) : ℚ)
              - (jsRound (v * (1 - s) * 255) : ℚ))
              / ((jsRound (v * 255) : ℚ) - (jsRound (v * (1 - s) * 255) : ℚ)))
            - (4 - h/60)) from by ring, abs_neg]
      exact hkey
    have hround := jsRound_sixty_err hratio
    rw [show (60:ℚ) * (h/60) = h by ring] at hround
    have hQle : ((jsRound (v * (1 - (h/60 - 3) * s) * 255) : ℤ) : ℚ)
        ≤ ((jsRound (v * 255) : ℤ) : ℚ) := by exact_mod_cast hQRlt.le
    have hxlo : (-1:ℚ) ≤ ((jsRound (v * (1 - s) * 255) : ℚ)
        - (jsRound (v * (1 - (h/60 - 3) * s) * 255) : ℚ))
        / ((jsRound (v * 255) : ℚ) - (jsRound (v * (1 - s) * 255) : ℚ)) := by
      rw [le_div_iff hden]
      linarith
    have hnn : 0 ≤ jsRound ((((jsRound (v * (1 - s) * 255) : ℚ)
        - (jsRound (v * (1 - (h/60 - 3) * s) * 255) : ℚ))
        / ((jsRound (v * 255) : ℚ) - (jsRound (v * (1 - s) * 255) : ℚ)) + 4) * 60) :=
      jsRound_nonneg (mul_nonneg (by linarith) (by norm_num))
    rw [if_neg (not_lt.mpr hnn)]
    exact le_trans (hueDist_le_abs _ _) hround

theorem roundTrip_s4 {h s v : ℚ} (hh0 : 240 ≤ h) (hh1 : h < 300)
    (hs : 1/2 ≤ s) (hs1 : s ≤ 1) (hv : 1/2 ≤ v) (hv1 : v ≤ 1) :
    |(roundTrip h s v).2.2 - v| ≤ 1/500 ∧ |(roundTrip h s v).2.1 - s| ≤ 1/100 ∧
      hueDist (roundTrip h s v).1 h ≤ 3/2 := by
  have hs0 : s ≠ 0 := ne_of_gt (by linarith)
  have hf0 : (0:ℚ) ≤ h/60 - 4 := by
    have : (4:ℚ) ≤ h/60 := by rw [le_div_iff (by norm_num)]; linarith
    linarith
  have hf1 : h/60 - 4 < 1 := by
    have : h/60 < 5 := by rw [div_lt_iff (by norm_num)]; linarith
    linarith
  have hvs : (1:ℚ)/4 ≤ v * s := by
    nlinarith [mul_nonneg (by linarith : (0:ℚ) ≤ v - 1/2) (by linarith : (0:ℚ) ≤ s - 1/2)]
  have hpt : v * (1 - s) * 255 ≤ v * (1 - (1 - (h/60 - 4)) * s) * 255 := by
    nlinarith [mul_nonneg (mul_nonneg (by linarith : (0:ℚ) ≤ v) (by linarith : (0:ℚ) ≤ s)) hf0]
  have htv : v * (1 - (1 - (h/60 - 4)) * s) * 255 ≤ v * 255 := by
    nlinarith [mul_nonneg (mul_nonneg (by linarith : (0:ℚ) ≤ v) (by linarith : (0:ℚ) ≤ s))
      (by linarith : (0:ℚ) ≤ 1 - (h/60 - 4))]
  have hp0 : (0:ℚ) ≤ v * (1 - s) * 255 := by
    nlinarith [mul_nonneg (by linarith : (0:ℚ) ≤ v) (by linarith : (0:ℚ) ≤ 1 - s)]
  have ht0 : (0:ℚ) ≤ v * (1 - (1 - (h/60 - 4)) * s) * 255 := le_trans hp0 hpt
  have hgap : 251/4 ≤ v * 255 - v * (1 - s) * 255 := by linarith [hvs]
  have hRa := jsRound_abs (v * 255)
  have hPa := jsRound_abs (v * (1 - s) * 255)
  have hTa := jsRound_abs (v * (1 - (1 - (h/60 - 4)) * s) * 255)
  unfold roundTrip
  rw [hsvToRgb_s4 hh0 hh1 hs0]
  dsimp only
  have hBRq : (jsRound (v * (1 - s) * 255) : ℚ) < (jsRound (v * 255) : ℚ) := by
    rw [abs_le] at hRa hPa
    linarith [hRa.1, hPa.2]
  have hPRlt : jsRound (v * (1 - s) * 255) < jsRound (v * 255) := by exact_mod_cast hBRq
  by_cases htie : jsRound (v * (1 - (1 - (h/60 - 4)) * s) * 255) = jsRound (v * 255)
  · -- rounded red equals rounded blue: the `max === r` branch fires
    have hcast : ((jsRound (v * (1 - (1 - (h/60 - 4)) * s) * 255) : ℤ) : ℚ)
        = ((jsRound (v * 255) : ℤ) : ℚ) := by exact_mod_cast htie
    have hG0 : 0 ≤ jsRound (v * (1 - s) * 255) := jsRound_nonneg hp0
    have hB0 : 0 ≤ jsRound (v * 255) := jsRound_nonneg (by linarith)
    have hGR : jsRound (v * (1 - s) * 255) ≤ jsRound (v * (1 - (1 - (h/60 - 4)) * s) * 255) :=
      jsRound_mono hpt
    have hBR : jsRound (v * 255) ≤ jsRound (v * (1 - (1 - (h/60 - 4)) * s) * 255) :=
      le_of_eq htie.symm
    have hd : min (jsRound (v * (1 - s) * 255)) (jsRound (v * 255))
        < jsRound (v * (1 - (1 - (h/60 - 4)) * s) * 255) := by
      refine lt_of_le_of_lt (min_le_left _ _) ?_
      rw [htie]
      exact hPRlt
    rw [rgbToHsv_max_r hG0 hB0 hGR hBR hd]
    rw [min_eq_left hBRq.le]
    dsimp only
    have hAa : |((jsRound (v * (1 - (1 - (h/60 - 4)) * s) * 255) : ℤ) : ℚ) - v * 255|
        ≤ 1/2 := by
      rw [hcast]
      exact hRa
    have hden : (0:ℚ) < (jsRound (v * (1 - (1 - (h/60 - 4)) * s) * 255) : ℚ)
        - (jsRound (v * (1 - s) * 255) : ℚ) := by
      rw [hcast]
      linarith
    refine ⟨rt_v_err hAa, rt_s_err rfl hs hs1 hv hv1 hAa (jsRound_abs (v * (1 - s) * 255)), ?_⟩
    have hx : ((jsRound (v * (1 - s) * 255) : ℚ) - (jsRound (v * 255) : ℚ))
        / ((jsRound (v * (1 - (1 - (h/60 - 4)) * s) * 255) : ℚ)
            - (jsRound (v * (1 - s) * 255) : ℚ)) = -1 := by
      rw [hcast, ← neg_sub ((jsRound (v * 255) : ℚ)) ((jsRound (v * (1 - s) * 255) : ℚ)),
        neg_div, div_self (by linarith : (jsRound (v * 255) : ℚ)
          - (jsRound (v * (1 - s) * 255) : ℚ) ≠ 0)]
  -- the guard keeps the rewrite well-typed
    rw [hx, jsMod_eq_self (by norm_num : (0:ℚ) < 6) (by norm_num) (by norm_num),
      show (-1:ℚ) * 60 = -60 by norm_num,
      show jsRound (-60:ℚ) = -60 from by decide, if_pos (by norm_num : ((-60:ℤ) < 0)),
      show ((-60 + 360 : ℤ) : ℚ) = 300 from by norm_num]
    refine le_trans (hueDist_le_abs _ _) ?_
    rw [abs_of_nonneg (by linarith : (0:ℚ) ≤ 300 - h)]
    have hsmall : v * 255 - v * (1 - (1 - (h/60 - 4)) * s) * 255 ≤ 1 := by
      have hT := abs_le.mp hTa
      have hR := abs_le.mp hRa
      linarith [hT.1, hR.2, hcast.le, hcast.ge]
    have hid : v * 255 - v * (1 - (1 - (h/60 - 4)) * s) * 255
        = 255 * (v * s * (5 - h/60)) := by ring
    rw [hid] at hsmall
    have hg0 : (0:ℚ) ≤ 5 - h/60 := by
      have : h/60 < 5 := by rw [div_lt_iff (by norm_num)]; linarith
      linarith
    nlinarith [mul_nonneg hg0 (by linarith : (0:ℚ) ≤ v * s - 1/4)]
  · -- rounded blue is strictly largest: the final branch fires
    have hTRlt : jsRound (v * (1 - (1 - (h/60 - 4)) * s) * 255) < jsRound (v * 255) :=
      lt_of_le_of_ne (jsRound_mono htv) htie
    have hR0 : 0 ≤ jsRound (v * (1 - (1 - (h/60 - 4)) * s) * 255) := jsRound_nonneg ht0
    have hG0 : 0 ≤ jsRound (v * (1 - s) * 255) := jsRound_nonneg hp0
    rw [rgbToHsv_max_b hR0 hG0 hTRlt hPRlt]
    have hPTq : ((jsRound (v * (1 - s) * 255) : ℤ) : ℚ)
        ≤ ((jsRound (v * (1 - (1 - (h/60 - 4)) * s) * 255) : ℤ) : ℚ) := by
      exact_mod_cast jsRound_mono hpt
    rw [min_eq_right hPTq]
    dsimp only
    refine ⟨rt_v_err (jsRound_abs (v * 255)),
      rt_s_err rfl hs hs1 hv hv1 (jsRound_abs (v * 255)) (jsRound_abs (v * (1 - s) * 255)), ?_⟩
    have hden : (0:ℚ) < (jsRound (v * 255) : ℚ) - (jsRound (v * (1 - s) * 255) : ℚ) := by
      linarith
    have hkey := rt_ratio_err hpt htv hgap
    have hTP : v * (1 - (1 - (h/60 - 4)) * s) * 255 - v * (1 - s) * 255
        = (v * 255 - v * (1 - s) * 255) * (h/60 - 4) := by ring
    have hVP0 : v * 255 - v * (1 - s) * 255 ≠ 0 := by linarith
    rw [hTP, mul_div_cancel_left₀ _ hVP0] at hkey
    have hratio : |(((jsRound (v * (1 - (1 - (h/60 - 4)) * s) * 255) : ℚ)
        - (jsRound (v * (1 - s) * 255) : ℚ))
        / ((jsRound (v * 255) : ℚ) - (jsRound (v * (1 - s) * 255) : ℚ)) + 4) - h/60|
        ≤ 4/247 := by
      rw [show (((jsRound (v * (1 - (1 - (h/60 - 4)) * s) * 255) : ℚ)
          - (jsRound (v * (1 - s) * 255) : ℚ))
          / ((jsRound (v * 255) : ℚ) - (jsRound (v * (1 - s) * 255) : ℚ)) + 4) - h/60
          = (((jsRound (v * (1 - (1 - (h/60 - 4)) * s) * 255) : ℚ)
              - (jsRound (v * (1 - s) * 255) : ℚ))
              / ((jsRound (v * 255) : ℚ) - (jsRound (v * (1 - s) * 255) : ℚ)))
            - (h/60 - 4) from by ring]
      exact hkey
    have hround := jsRound_sixty_err hratio
    rw [show (60:ℚ) * (h/60) = h by ring] at hround
    have hx0 : (0:ℚ) ≤ ((jsRound (v * (1 - (1 - (h/60 - 4)) * s) * 255) : ℚ)
        - (jsRound (v * (1 - s) * 255) : ℚ))
        / ((jsRound (v * 255) : ℚ) - (jsRound (v * (1 - s) * 255) : ℚ)) :=
      div_nonneg (by linarith) hden.le
    have hnn : 0 ≤ jsRound ((((jsRound (v * (1 - (1 - (h/60 - 4)) * s) * 255) : ℚ)
        - (jsRound (v * (1 - s) * 255) : ℚ))
        / ((jsRound (v * 255) : ℚ) - (jsRound (v * (1 - s) * 255) : ℚ)) + 4) * 60) :=
      jsRound_nonneg (mul_nonneg (by linarith) (by norm_num))
    rw [if_neg (not_lt.mpr hnn)]
    exact le_trans (hueDist_le_abs _ _) hround

theorem roundTrip_s5 {h s v : ℚ} (hh0 : 300 ≤ h) (hh1 : h < 360)
    (hs : 1/2 ≤ s) (hs1 : s ≤ 1) (hv : 1/2 ≤ v) (hv1 : v ≤ 1) :
    |(roundTrip h s v).2.2 - v| ≤ 1/500 ∧ |(roundTrip h s v).2.1 - s| ≤ 1/100 ∧
      hueDist (roundTrip h s v).1 h ≤ 3/2 := by
  have hs0 : s ≠ 0 := ne_of_gt (by linarith)
  have hf0 : (0:ℚ) ≤ h/60 - 5 := by
    have : (5:ℚ) ≤ h/60 := by rw [le_div_iff (by norm_num)]; linarith
    linarith
  have hf1 : h/60 - 5 < 1 := by
    have : h/60 < 6 := by rw [div_lt_iff (by norm_num)]; linarith
    linarith
  have hvs : (1:ℚ)/4 ≤ v * s := by
    nlinarith [mul_nonneg (by linarith : (0:ℚ) ≤ v - 1/2) (by linarith : (0:ℚ) ≤ s - 1/2)]
  have hpq : v * (1 - s) * 255 ≤ v * (1 - (h/60 - 5) * s) * 255 := by
    nlinarith [mul_nonneg (mul_nonneg (by linarith : (0:ℚ) ≤ v) (by linarith : (0:ℚ) ≤ s))
      (by linarith : (0:ℚ) ≤ 1 - (h/60 - 5))]
  have hqv : v * (1 - (h/60 - 5) * s) * 255 ≤ v * 255 := by
    nlinarith [mul_nonneg (mul_nonneg (by linarith : (0:ℚ) ≤ v) (by linarith : (0:ℚ) ≤ s)) hf0]
  have hp0 : (0:ℚ) ≤ v * (1 - s) * 255 := by
    nlinarith [mul_nonneg (by linarith : (0:ℚ) ≤ v) (by linarith : (0:ℚ) ≤ 1 - s)]
  have hq0 : (0:ℚ) ≤ v * (1 - (h/60 - 5) * s) * 255 := le_trans hp0 hpq
  have hgap : 251/4 ≤ v * 255 - v * (1 - s) * 255 := by linarith [hvs]
  have hRa := jsRound_abs (v * 255)
  have hPa := jsRound_abs (v * (1 - s) * 255)
  unfold roundTrip
  rw [hsvToRgb_s5 hh0 hh1 hs0]
  dsimp only
  have hBRq : (jsRound (v * (1 - s) * 255) : ℚ) < (jsRound (v * 255) : ℚ) := by
    rw [abs_le] at hRa hPa
    linarith [hRa.1, hPa.2]
  have hPRlt : jsRound (v * (1 - s) * 255) < jsRound (v * 255) := by exact_mod_cast hBRq
  have hG0 : 0 ≤ jsRound (v * (1 - s) * 255) := jsRound_nonneg hp0
  have hB0 : 0 ≤ jsRound (v * (1 - (h/60 - 5) * s) * 255) := jsRound_nonneg hq0
  have hGR : jsRound (v * (1 - s) * 255) ≤ jsRound (v * 255) := hPRlt.le
  have hBR : jsRound (v * (1 - (h/60 - 5) * s) * 255) ≤ jsRound (v * 255) := jsRound_mono hqv
  have hd : min (jsRound (v * (1 - s) * 255)) (jsRound (v * (1 - (h/60 - 5) * s) * 255))
      < jsRound (v * 255) := lt_of_le_of_lt (min_le_left _ _) hPRlt
  rw [rgbToHsv_max_r hG0 hB0 hGR hBR hd]
  have hPQq : ((jsRound (v * (1 - s) * 255) : ℤ) : ℚ)
      ≤ ((jsRound (v * (1 - (h/60 - 5) * s) * 255) : ℤ) : ℚ) := by
    exact_mod_cast jsRound_mono hpq
  rw [min_eq_left hPQq]
  dsimp only
  refine ⟨rt_v_err (jsRound_abs (v * 255)),
    rt_s_err rfl hs hs1 hv hv1 (jsRound_abs (v * 255)) (jsRound_abs (v * (1 - s) * 255)), ?_⟩
  have hden : (0:ℚ) < (jsRound (v * 255) : ℚ) - (jsRound (v * (1 - s) * 255) : ℚ) := by
    linarith
  have hQle : ((jsRound (v * (1 - (h/60 - 5) * s) * 255) : ℤ) : ℚ)
      ≤ ((jsRound (v * 255) : ℤ) : ℚ) := by exact_mod_cast jsRound_mono hqv
  have hxlo : (-1:ℚ) ≤ ((jsRound (v * (1 - s) * 255) : ℚ)
      - (jsRound (v * (1 - (h/60 - 5) * s) * 255) : ℚ))
      / ((jsRound (v * 255) : ℚ) - (jsRound (v * (1 - s) * 255) : ℚ)) := by
    rw [le_div_iff hden]
    linarith
  have hxhi : ((jsRound (v * (1 - s) * 255) : ℚ)
      - (jsRound (v * (1 - (h/60 - 5) * s) * 255) : ℚ))
      / ((jsRound (v * 255) : ℚ) - (jsRound (v * (1 - s) * 255) : ℚ)) ≤ 0 := by
    rw [div_le_iff hden]
    linarith
  rw [jsMod_eq_self (by norm_num : (0:ℚ) < 6) (by linarith) (by linarith)]
  have hkey := rt_ratio_err hpq hqv hgap
  have hTP : v * (1 - (h/60 - 5) * s) * 255 - v * (1 - s) * 255
      = (v * 255 - v * (1 - s) * 255) * (6 - h/60) := by ring
  have hVP0 : v * 255 - v * (1 - s) * 255 ≠ 0 := by linarith
  rw [hTP, mul_div_cancel_left₀ _ hVP0] at hkey
  have hratio : |(((jsRound (v * (1 - s) * 255) : ℚ)
      - (jsRound (v * (1 - (h/60 - 5) * s) * 255) : ℚ))
      / ((jsRound (v * 255) : ℚ) - (jsRound (v * (1 - s) * 255) : ℚ))) - (h/60 - 6)|
      ≤ 4/247 := by
    rw [show (((jsRound (v * (1 - s) * 255) : ℚ)
        - (jsRound (v * (1 - (h/60 - 5) * s) * 255) : ℚ))
        / ((jsRound (v * 255) : ℚ) - (jsRound (v * (1 - s) * 255) : ℚ))) - (h/60 - 6)
        = -((((jsRound (v * (1 - (h/60 - 5) * s) * 255) : ℚ)
            - (jsRound (v * (1 - s) * 255) : ℚ))
            / ((jsRound (v * 255) : ℚ) - (jsRound (v * (1 - s) * 255) : ℚ)))
          - (6 - h/60)) from by ring, abs_neg]
    exact hkey
  have hround := jsRound_sixty_err hratio
  rw [show (60:ℚ) * (h/60 - 6) = h - 360 by ring] at hround
  by_cases hneg : jsRound ((((jsRound (v * (1 - s) * 255) : ℚ)
      - (jsRound (v * (1 - (h/60 - 5) * s) * 255) : ℚ))
      / ((jsRound (v * 255) : ℚ) - (jsRound (v * (1 - s) * 255) : ℚ))) * 60) < 0
  · rw [if_pos hneg]
    refine le_trans (hueDist_le_abs _ _) ?_
    rw [show ((jsRound ((((jsRound (v * (1 - s) * 255) : ℚ)
        - (jsRound (v * (1 - (h/60 - 5) * s) * 255) : ℚ))
        / ((jsRound (v * 255) : ℚ) - (jsRound (v * (1 - s) * 255) : ℚ))) * 60) + 360 : ℤ) : ℚ)
        = ((jsRound ((((jsRound (v * (1 - s) * 255) : ℚ)
            - (jsRound (v * (1 - (h/60 - 5) * s) * 255) : ℚ))
            / ((jsRound (v * 255) : ℚ) - (jsRound (v * (1 - s) * 255) : ℚ))) * 60) : ℤ) : ℚ)
          + 360 from by push_cast; ring]
    rw [show ((jsRound ((((jsRound (v * (1 - s) * 255) : ℚ)
        - (jsRound (v * (1 - (h/60 - 5) * s) * 255) : ℚ))
        / ((jsRound (v * 255) : ℚ) - (jsRound (v * (1 - s) * 255) : ℚ))) * 60) : ℤ) : ℚ)
        + 360 - h
        = ((jsRound ((((jsRound (v * (1 - s) * 255) : ℚ)
            - (jsRound (v * (1 - (h/60 - 5) * s) * 255) : ℚ))
            / ((jsRound (v * 255) : ℚ) - (jsRound (v * (1 - s) * 255) : ℚ))) * 60) : ℤ) : ℚ)
          - (h - 360) from by ring]
    exact hround
  · rw [if_neg hneg]
    push_neg at hneg
    have h0q : (0:ℚ) ≤ ((jsRound ((((jsRound (v * (1 - s) * 255) : ℚ)
        - (jsRound (v * (1 - (h/60 - 5) * s) * 255) : ℚ))
        / ((jsRound (v * 255) : ℚ) - (jsRound (v * (1 - s) * 255) : ℚ))) * 60) : ℤ) : ℚ) := by
      exact_mod_cast hneg
    have hr := abs_le.mp hround
    refine le_trans (hueDist_le_wrap _ _) ?_
    rw [abs_of_nonpos (by linarith [hr.2] : ((jsRound ((((jsRound (v * (1 - s) * 255) : ℚ)
        - (jsRound (v * (1 - (h/60 - 5) * s) * 255) : ℚ))
        / ((jsRound (v * 255) : ℚ) - (jsRound (v * (1 - s) * 255) : ℚ))) * 60) : ℤ) : ℚ)
        - h ≤ 0)]
    linarith [hr.2]

/-- C9 counterexample: at `(h, s, v) = (120, 1, 1/1000)` — a legal input with
`s > 0` and `v > 0` — `hsvToRgb` quantizes every byte to `0`, and the round
trip returns `(0, 0, 0)`: the recovered saturation is off by `1` (the whole
range) and the recovered hue is off by `120` degrees, so no small tolerance
bounds the round-trip error over all `s > 0`, `v > 0`. -/
theorem C9_counterexample :
    roundTrip 120 1 (1/1000) = (0, 0, 0) ∧
    |(roundTrip 120 1 (1/1000)).2.1 - 1| = 1 ∧
    hueDist (roundTrip 120 1 (1/1000)).1 120 = 120 := by decide

/-- C9 (amended): on the region `h ∈ [0, 360)`, `s ∈ [1/2, 1]`, `v ∈ [1/2, 1]`
the byte-quantized round trip `rgbToHsv ∘ hsvToRgb` does recover the input
within small explicit tolerances: value within `1/500`, saturation within
`1/100`, and hue within `3/2` degrees of circular distance. -/
theorem C9_roundtrip_amended {h s v : ℚ} (hh0 : 0 ≤ h) (hh1 : h < 360)
    (hs : 1/2 ≤ s) (hs1 : s ≤ 1) (hv : 1/2 ≤ v) (hv1 : v ≤ 1) :
    |(roundTrip h s v).2.2 - v| ≤ 1/500 ∧ |(roundTrip h s v).2.1 - s| ≤ 1/100 ∧
      hueDist (roundTrip h s v).1 h ≤ 3/2 := by
  rcases lt_or_le h 60 with hc1 | hc1
  · exact roundTrip_s0 hh0 hc1 hs hs1 hv hv1
  rcases lt_or_le h 120 with hc2 | hc2
  · exact roundTrip_s1 hc1 hc2 hs hs1 hv hv1
  rcases lt_or_le h 180 with hc3 | hc3
  · exact roundTrip_s2 hc2 hc3 hs hs1 hv hv1
  rcases lt_or_le h 240 with hc4 | hc4
  · exact roundTrip_s3 hc3 hc4 hs hs1 hv hv1
  rcases lt_or_le h 300 with hc5 | hc5
  · exact roundTrip_s4 hc4 hc5 hs hs1 hv hv1
  exact roundTrip_s5 hc5 hh1 hs hs1 hv hv1

theorem C9_witness :
    (0:ℚ) ≤ 200 ∧ (200:ℚ) < 360 ∧ (1/2:ℚ) ≤ 3/4 ∧ (3/4:ℚ) ≤ 1 ∧
    (|(roundTrip 200 (3/4) (3/4)).2.2 - 3/4| ≤ 1/500 ∧
      |(roundTrip 200 (3/4) (3/4)).2.1 - 3/4| ≤ 1/100 ∧
      hueDist (roundTrip 200 (3/4) (3/4)).1 200 ≤ 3/2) :=
  ⟨by norm_num, by norm_num, by norm_num, by norm_num,
    C9_roundtrip_amended (by norm_num) (by norm_num) (by norm_num) (by norm_num)
      (by norm_num) (by norm_num)⟩

end ImageApp
